import Mathlib

/-!
# Agentarium tracking core: a shallow embedding

This file embeds the persistent data model and the operations of the
`agentarium` plugin (Event Store in `lib/database.ts`, Context Store in
`lib/context.ts`, and the five lifecycle hooks) as executable Lean
definitions, and proves the spec claims about them.

Modelling conventions, stated once:
* SQLite `datetime('now')` TEXT timestamps compare lexicographically, which
  for the fixed ISO format agrees with chronological order; timestamps are
  therefore modelled as `Nat` (milliseconds).  The one-hour staleness
  threshold of the sweep is `3600000` ms, and the SQL comparison
  `started_at < datetime('now','-1 hour')` becomes
  `started_at + staleMs < now`.
* `duration_ms = (julianday(now) - julianday(started_at)) * 86400000` is the
  elapsed time in milliseconds, i.e. `now - started_at`.
* JavaScript truthiness on optional strings (`if (x)`, `x || undefined`)
  treats both `undefined` and `""` as absent; this is modelled by `jsStr`.
  Truthiness on optional numbers (`filters.limit || 100`,
  `if (ctx.pendingToolUseId)`) treats `0` as absent; modelled by `jsNum`
  and an explicit `tid = 0` test.
* `id TEXT PRIMARY KEY` on `agents` makes an `INSERT` with a duplicate id
  throw; the pre-tool hook has no catch, so the process dies before any
  other write.  `preToolHook` therefore returns the state unchanged when
  the generated agent id already exists.
* Opaque JSON payloads are modelled by `JVal`, which only distinguishes
  the one shape the code inspects (`typeof x === "string"`).
-/

/-- An opaque JSON value; the code only ever branches on whether a payload
is a string, so only that distinction is modelled. -/
inductive JVal where
  | jstr (s : String)
  | jother
deriving DecidableEq

/-- JS string truthiness: `undefined` and `""` are falsy. -/
def jsStr : Option String → Option String
  | some s => if s.isEmpty then none else some s
  | none => none

/-- JS `n || d` on an optional number: `undefined` and `0` fall back to `d`. -/
def jsNum (o : Option Nat) (d : Nat) : Nat :=
  match o with
  | some n => if n = 0 then d else n
  | none => d

/-- `String.prototype.includes`, computed on the character list. -/
def charsStartWith : List Char → List Char → Bool
  | _, [] => true
  | [], _ :: _ => false
  | c :: cs, p :: ps => c == p && charsStartWith cs ps

/-- Substring search on character lists (JS `includes`). -/
def charsContain : List Char → List Char → Bool
  | [], pat => pat.isEmpty
  | c :: cs, pat => charsStartWith (c :: cs) pat || charsContain cs pat

/-- JS `s.includes(pat)`. -/
def strIncludes (s pat : String) : Bool :=
  charsContain s.data pat.data

/-- `tool_uses.status`: `pending`, `success`, `error` or `interrupted`. -/
inductive ToolStatus where
  | pending
  | success
  | error
  | interrupted
deriving DecidableEq

/-- `agents.status`: `running`, `completed` or `interrupted`. -/
inductive AgentStatus where
  | running
  | completed
  | interrupted
deriving DecidableEq

/-- A row of the `sessions` table. -/
structure Session where
  id : String
  started_at : Nat
  ended_at : Option Nat
  project_root : Option String
  working_directory : Option String
  model : Option String
  git_branch : Option String
  metadata : Option String
deriving DecidableEq

/-- A row of the `agents` table. -/
structure Agent where
  id : String
  session_id : String
  parent_agent_id : Option String
  agent_type : Option String
  description : Option String
  started_at : Nat
  ended_at : Option Nat
  status : AgentStatus
deriving DecidableEq

/-- A row of the `tool_uses` table. -/
structure ToolUse where
  id : Nat
  session_id : String
  agent_id : Option String
  tool_name : String
  tool_input : Option JVal
  tool_output : Option JVal
  started_at : Nat
  ended_at : Option Nat
  duration_ms : Option Nat
  status : ToolStatus
  error : Option String
deriving DecidableEq

/-- A row of the `events` table. -/
structure Event where
  id : Nat
  session_id : String
  agent_id : Option String
  event_type : String
  event_data : Option JVal
  timestamp : Nat
deriving DecidableEq

/-- The Event Store: the four runtime tables plus the AUTOINCREMENT
counters of `tool_uses` and `events` (SQLite starts them at 1). -/
structure Db where
  sessions : List Session
  agents : List Agent
  tool_uses : List ToolUse
  events : List Event
  nextToolUseId : Nat
  nextEventId : Nat
deriving DecidableEq

/-- The empty store right after `initializeSchema`. -/
def emptyDb : Db := ⟨[], [], [], [], 1, 1⟩

/-- Optional fields of `createSession`. -/
structure SessionMeta where
  projectRoot : Option String := none
  workingDirectory : Option String := none
  model : Option String := none
  gitBranch : Option String := none
  metadata : Option String := none
deriving DecidableEq

/-- `createSession`: `INSERT OR REPLACE INTO sessions` — a row with the
same primary key is replaced, `started_at = now`, `ended_at` NULL. -/
def createSession (sessionId : String) (data : SessionMeta) (now : Nat) (db : Db) : Db :=
  { db with sessions :=
      db.sessions.filter (fun s => !(s.id == sessionId)) ++
        [⟨sessionId, now, none, jsStr data.projectRoot, jsStr data.workingDirectory,
          jsStr data.model, jsStr data.gitBranch, data.metadata⟩] }

/-- `endSession`: `UPDATE sessions SET ended_at = now WHERE id = ?`. -/
def endSession (sessionId : String) (now : Nat) (db : Db) : Db :=
  { db with sessions :=
      db.sessions.map (fun s => if s.id = sessionId then { s with ended_at := some now } else s) }

/-- `deleteSessions`: early return on an empty list, then four `DELETE`s
in dependency order — tool_uses, events, agents, sessions. -/
def deleteSessions (sessionIds : List String) (db : Db) : Db :=
  if sessionIds.isEmpty then db
  else
    { db with
      tool_uses := db.tool_uses.filter (fun t => !(sessionIds.contains t.session_id)),
      events := db.events.filter (fun e => !(sessionIds.contains e.session_id)),
      agents := db.agents.filter (fun a => !(sessionIds.contains a.session_id)),
      sessions := db.sessions.filter (fun s => !(sessionIds.contains s.id)) }

/-- Insertion step of a descending sort by a `Nat` key. -/
def insertDescBy (key : α → Nat) (a : α) : List α → List α
  | [] => [a]
  | b :: l => if key b ≤ key a then a :: b :: l else b :: insertDescBy key a l

/-- `ORDER BY <key> DESC` (ties in an unspecified but fixed order). -/
def sortDescBy (key : α → Nat) : List α → List α
  | [] => []
  | a :: l => insertDescBy key a (sortDescBy key l)

/-- `getSessions`: optional branch filter, newest first, paged. -/
def getSessions (limit offset : Nat) (gitBranch : Option String) (db : Db) : List Session :=
  let rows :=
    match jsStr gitBranch with
    | some b => db.sessions.filter (fun s => s.git_branch == some b)
    | none => db.sessions
  ((sortDescBy (fun s => s.started_at) rows).drop offset).take limit

/-- `createAgent`: plain `INSERT`; `id TEXT PRIMARY KEY` makes a duplicate
id throw, modelled as `none`. -/
def createAgent (a : Agent) (db : Db) : Option Db :=
  if db.agents.any (fun b => b.id == a.id) then none
  else some { db with agents := db.agents ++ [a] }

/-- `endAgent`: `UPDATE agents SET ended_at = now, status = ? WHERE id = ?`. -/
def endAgent (agentId : String) (status : AgentStatus) (now : Nat) (db : Db) : Db :=
  { db with agents :=
      db.agents.map (fun a =>
        if a.id = agentId then { a with ended_at := some now, status := status } else a) }

/-- `getAgents`: optional session filter (JS truthiness), newest first. -/
def getAgents (sessionId : Option String) (limit : Nat) (db : Db) : List Agent :=
  let rows :=
    match jsStr sessionId with
    | some sid => db.agents.filter (fun a => a.session_id == sid)
    | none => db.agents
  (sortDescBy (fun a => a.started_at) rows).take limit

/-- `recordToolStart`: `INSERT INTO tool_uses` with status `pending`
(column default), no `ended_at`, no `duration_ms`; returns
`lastInsertRowid`. -/
def recordToolStart (sessionId : String) (agentId : Option String) (toolName : String)
    (toolInput : Option JVal) (now : Nat) (db : Db) : Nat × Db :=
  (db.nextToolUseId,
    { db with
      tool_uses := db.tool_uses ++
        [⟨db.nextToolUseId, sessionId, agentId, toolName, toolInput, none, now,
          none, none, ToolStatus.pending, none⟩],
      nextToolUseId := db.nextToolUseId + 1 })

/-- `recordToolEnd`: finalize the row with the given id — `ended_at = now`,
`duration_ms = now - started_at`, output, status and error (the code
passes `data.error || null`). -/
def recordToolEnd (id : Nat) (output : Option JVal) (status : ToolStatus)
    (error : Option String) (now : Nat) (db : Db) : Db :=
  { db with tool_uses :=
      db.tool_uses.map (fun t =>
        if t.id = id then
          { t with ended_at := some now, duration_ms := some (now - t.started_at),
                   tool_output := output, status := status, error := jsStr error }
        else t) }

/-- `markPendingToolsInterrupted`: close every still-pending row of one
session with status `interrupted`. -/
def markPendingToolsInterrupted (sessionId : String) (now : Nat) (db : Db) : Db :=
  { db with tool_uses :=
      db.tool_uses.map (fun t =>
        if t.session_id = sessionId ∧ t.status = ToolStatus.pending then
          { t with ended_at := some now, duration_ms := some (now - t.started_at),
                   status := ToolStatus.interrupted,
                   error := some "Session ended before tool completed" }
        else t) }

/-- One hour in milliseconds: the staleness threshold of the sweep. -/
def staleMs : Nat := 3600000

/-- First sweep update: a pending row whose owning session has `ended_at`
set is closed as interrupted. -/
def sweepEndedSession (sessions : List Session) (now : Nat) (t : ToolUse) : ToolUse :=
  if t.status = ToolStatus.pending ∧
      (sessions.any (fun s => s.id == t.session_id && s.ended_at.isSome)) = true then
    { t with ended_at := some now, duration_ms := some (now - t.started_at),
             status := ToolStatus.interrupted,
             error := some "Session ended abnormally" }
  else t

/-- Second sweep update: a pending row older than one hour is closed as
interrupted regardless of session state. -/
def sweepStale (now : Nat) (t : ToolUse) : ToolUse :=
  if t.status = ToolStatus.pending ∧ t.started_at + staleMs < now then
    { t with ended_at := some now, duration_ms := some (now - t.started_at),
             status := ToolStatus.interrupted,
             error := some "Stale pending tool (session likely ended abnormally)" }
  else t

/-- `cleanupStalePendingTools`: the Stale-Recovery Sweep — the two
`UPDATE`s run in source order over the whole table. -/
def cleanupStalePendingTools (now : Nat) (db : Db) : Db :=
  { db with tool_uses :=
      (db.tool_uses.map (sweepEndedSession db.sessions now)).map (sweepStale now) }

/-- `recordEvent`: append-only `INSERT INTO events`. -/
def recordEvent (sessionId : String) (agentId : Option String) (eventType : String)
    (eventData : Option JVal) (now : Nat) (db : Db) : Db :=
  { db with
    events := db.events ++ [⟨db.nextEventId, sessionId, agentId, eventType, eventData, now⟩],
    nextEventId := db.nextEventId + 1 }

/-- Filters of `getToolUses` (all optional, conjunctive). -/
structure ToolUseFilters where
  sessionId : Option String := none
  agentId : Option String := none
  toolName : Option String := none
  status : Option String := none
  limit : Option Nat := none
  offset : Option Nat := none

/-- The status strings stored in the table, for the status filter. -/
def toolStatusText : ToolStatus → String
  | ToolStatus.pending => "pending"
  | ToolStatus.success => "success"
  | ToolStatus.error => "error"
  | ToolStatus.interrupted => "interrupted"

/-- Conjunctive WHERE clause of `getToolUses`; each condition is pushed
only when the filter is truthy. -/
def toolUseMatches (f : ToolUseFilters) (t : ToolUse) : Bool :=
  (match jsStr f.sessionId with | some s => t.session_id == s | none => true) &&
  (match jsStr f.agentId with | some a => t.agent_id == some a | none => true) &&
  (match jsStr f.toolName with | some n => t.tool_name == n | none => true) &&
  (match jsStr f.status with | some st => toolStatusText t.status == st | none => true)

/-- `getToolUses`: filter, newest first, `LIMIT ? OFFSET ?` with JS
defaulting (`limit || 100`, `offset || 0`). -/
def getToolUses (f : ToolUseFilters) (db : Db) : List ToolUse :=
  ((sortDescBy (fun t => t.started_at) (db.tool_uses.filter (toolUseMatches f))).drop
      (jsNum f.offset 0)).take (jsNum f.limit 100)

/-- Filters of `getEvents`. -/
structure EventFilters where
  sessionId : Option String := none
  agentId : Option String := none
  eventType : Option String := none
  limit : Option Nat := none

/-- Conjunctive WHERE clause of `getEvents`. -/
def eventMatches (f : EventFilters) (e : Event) : Bool :=
  (match jsStr f.sessionId with | some s => e.session_id == s | none => true) &&
  (match jsStr f.agentId with | some a => e.agent_id == some a | none => true) &&
  (match jsStr f.eventType with | some ty => e.event_type == ty | none => true)

/-- `getEvents`: filter, `ORDER BY timestamp DESC LIMIT ?`. -/
def getEvents (f : EventFilters) (db : Db) : List Event :=
  (sortDescBy (fun e => e.timestamp) (db.events.filter (eventMatches f))).take
    (jsNum f.limit 100)

/-- `AgentariumContext`: the Context Store file contents
(`lib/context.ts`). -/
structure Ctx where
  currentSessionId : Option String
  currentAgentId : Option String
  pendingToolUseId : Option Nat
  agentStack : List String
deriving DecidableEq

/-- The documented zero-value default returned when the context file is
absent or unparsable. -/
def defaultCtx : Ctx := ⟨none, none, none, []⟩

/-- Whole system state: Event Store plus Context Store. -/
structure Sys where
  db : Db
  ctx : Ctx
deriving DecidableEq

/-- Fresh install: empty store, default context. -/
def initialSys : Sys := ⟨emptyDb, defaultCtx⟩

/-- Structured `tool_input` of a `Task` call, as far as the pre-tool hook
reads it. -/
structure TaskInput where
  subagent_type : Option String := none
  description : Option String := none
  prompt : Option String := none
deriving DecidableEq

/-- JS `a || b` on optional strings. -/
def jsOrStr (a b : Option String) : Option String :=
  match jsStr a with
  | some s => some s
  | none => b

/-- `hooks/session-start.ts`: run the sweep, insert the Session row, reset
the context to `(sessionId, null, null, [])`.  (Project-metadata writes
such as `clearNeedsRestart` do not touch the modelled state.) -/
def sessionStartHook (sessionId : String) (meta : SessionMeta) (now : Nat) (s : Sys) : Sys :=
  let db1 := cleanupStalePendingTools now s.db
  let db2 := createSession sessionId meta now db1
  ⟨db2, ⟨some sessionId, none, none, []⟩⟩

/-- `hooks/pre-tool.ts`: no-op without an open session; on `Task`, create
an Agent (parent = current agent), push it, record `agent_start`; then
always insert a pending ToolUse and record its id as `pendingToolUseId`.
The hook passes the *local* `ctx.currentAgentId` — read before the push
and never reassigned — to `recordToolStart`, so the ToolUse of the `Task`
call itself is attributed to the pre-push current agent. -/
def preToolHook (toolName : String) (toolInput : Option JVal) (task : TaskInput)
    (genId : String) (now : Nat) (s : Sys) : Sys :=
  match jsStr s.ctx.currentSessionId with
  | none => s
  | some sid =>
    if toolName = "Task" then
      let agent : Agent :=
        ⟨genId, sid, jsStr s.ctx.currentAgentId,
          some ((jsStr task.subagent_type).getD "unknown"),
          jsOrStr task.description (task.prompt.map (fun p => p.take 100)),
          now, none, AgentStatus.running⟩
      match createAgent agent s.db with
      | none => s
      | some db1 =>
        let newStack := s.ctx.agentStack ++ [genId]
        let db2 := recordEvent sid (some genId) "agent_start" toolInput now db1
        let (tid, db3) := recordToolStart sid (jsStr s.ctx.currentAgentId) toolName toolInput now db2
        ⟨db3, { s.ctx with currentAgentId := some genId, agentStack := newStack,
                           pendingToolUseId := some tid }⟩
    else
      let (tid, db1) := recordToolStart sid (jsStr s.ctx.currentAgentId) toolName toolInput now s.db
      ⟨db1, { s.ctx with pendingToolUseId := some tid }⟩

/-- The failure heuristic of the post-tool hook:
`hookData?.error || (typeof tool_output === "string" && tool_output.includes("error"))`. -/
def postHasError (output : Option JVal) (error : Option String) : Bool :=
  (jsStr error).isSome ||
    (match output with
     | some (JVal.jstr t) => strIncludes t "error"
     | _ => false)

/-- `hooks/post-tool.ts`: if `pendingToolUseId` is truthy, finalize that
row and clear the marker; otherwise write nothing. -/
def postToolHook (output : Option JVal) (error : Option String) (now : Nat) (s : Sys) : Sys :=
  match s.ctx.pendingToolUseId with
  | none => s
  | some tid =>
    if tid = 0 then s
    else
      let status := if postHasError output error then ToolStatus.error else ToolStatus.success
      let db1 := recordToolEnd tid output status error now s.db
      ⟨db1, { s.ctx with pendingToolUseId := none }⟩

/-- The subagent-stop hook: pop the top of the stack if non-empty, mark
that agent `completed`, record `agent_complete`, restore the previous
current agent (or null). -/
def subagentStopHook (_result : Option JVal) (now : Nat) (s : Sys) : Sys :=
  match jsStr s.ctx.currentSessionId with
  | none => s
  | some sid =>
    match s.ctx.agentStack.getLast? with
    | none => s
    | some completedId =>
      let stack1 := s.ctx.agentStack.dropLast
      let db1 := endAgent completedId AgentStatus.completed now s.db
      let db2 := recordEvent sid (some completedId) "agent_complete" (some JVal.jother) now db1
      ⟨db2, { s.ctx with currentAgentId := stack1.getLast?, agentStack := stack1 }⟩

/-- The stop hook ("turn complete"): append a `turn_complete` Event only. -/
def stopHook (now : Nat) (s : Sys) : Sys :=
  match jsStr s.ctx.currentSessionId with
  | none => s
  | some sid =>
    ⟨recordEvent sid (jsStr s.ctx.currentAgentId) "turn_complete" (some JVal.jother) now s.db,
      s.ctx⟩

/-- `hooks/session-end.ts`: mark still-pending ToolUses interrupted,
append `session_end`, set `ended_at`, then reset the context
unconditionally. -/
def sessionEndHook (now : Nat) (s : Sys) : Sys :=
  let db' :=
    match jsStr s.ctx.currentSessionId with
    | none => s.db
    | some sid =>
      let d1 := markPendingToolsInterrupted sid now s.db
      let d2 := recordEvent sid none "session_end" (some JVal.jother) now d1
      endSession sid now d2
  ⟨db', ⟨none, none, none, []⟩⟩

/-- One lifecycle hook invocation with its inputs. -/
inductive HookCall where
  | start (sessionId : String) (meta : SessionMeta) (now : Nat)
  | pre (toolName : String) (toolInput : Option JVal) (task : TaskInput)
        (genId : String) (now : Nat)
  | post (output : Option JVal) (error : Option String) (now : Nat)
  | substop (result : Option JVal) (now : Nat)
  | stop (now : Nat)
  | endSess (now : Nat)

/-- The Hook Correlator step function. -/
def applyHook : HookCall → Sys → Sys
  | HookCall.start sid meta now, s => sessionStartHook sid meta now s
  | HookCall.pre name input task genId now, s => preToolHook name input task genId now s
  | HookCall.post output err now, s => postToolHook output err now s
  | HookCall.substop result now, s => subagentStopHook result now s
  | HookCall.stop now, s => stopHook now s
  | HookCall.endSess now, s => sessionEndHook now s

/-- Run a sequence of hook invocations left to right. -/
def runHooks (l : List HookCall) (s : Sys) : Sys :=
  l.foldl (fun s c => applyHook c s) s

/-- A state is reachable when some hook sequence produces it from the
fresh install. -/
def Reachable (s : Sys) : Prop :=
  ∃ l : List HookCall, s = runHooks l initialSys

/-- The two sides merged by the timeline. -/
inductive TimelineKind where
  | tool
  | event
deriving DecidableEq

/-- The uniform timeline row shape produced by `getTimeline`'s UNION. -/
structure TimelineEntry where
  kind : TimelineKind
  id : Nat
  session_id : String
  agent_id : Option String
  name : String
  timestamp : Nat
  status : Option ToolStatus
  duration_ms : Option Nat
  data : Option JVal
deriving DecidableEq

/-- Filters of `getTimeline`. -/
structure TimelineFilters where
  sessionId : Option String := none
  startTime : Option Nat := none
  endTime : Option Nat := none
  limit : Option Nat := none

/-- The tool-side WHERE clause of `getTimeline`: session, and the time
range applied to `started_at`. -/
def tlToolMatches (f : TimelineFilters) (t : ToolUse) : Bool :=
  (match jsStr f.sessionId with | some s => t.session_id == s | none => true) &&
  (match f.startTime with | some n => n ≤ t.started_at | none => true) &&
  (match f.endTime with | some n => t.started_at ≤ n | none => true)

/-- The event-side WHERE clause of `getTimeline`: the same filters applied
to `timestamp`. -/
def tlEventMatches (f : TimelineFilters) (e : Event) : Bool :=
  (match jsStr f.sessionId with | some s => e.session_id == s | none => true) &&
  (match f.startTime with | some n => n ≤ e.timestamp | none => true) &&
  (match f.endTime with | some n => e.timestamp ≤ n | none => true)

/-- The tool-side SELECT list of the UNION. -/
def toolEntry (t : ToolUse) : TimelineEntry :=
  ⟨TimelineKind.tool, t.id, t.session_id, t.agent_id, t.tool_name, t.started_at,
    some t.status, t.duration_ms, t.tool_input⟩

/-- The event-side SELECT list of the UNION (status and duration NULL). -/
def eventEntry (e : Event) : TimelineEntry :=
  ⟨TimelineKind.event, e.id, e.session_id, e.agent_id, e.event_type, e.timestamp,
    none, none, e.event_data⟩

/-- `getTimeline`: filter both sides identically, UNION ALL, `ORDER BY
timestamp DESC`, `LIMIT ?` with JS defaulting (`limit || 200`). -/
def getTimeline (f : TimelineFilters) (db : Db) : List TimelineEntry :=
  let tools := (db.tool_uses.filter (tlToolMatches f)).map toolEntry
  let evs := (db.events.filter (tlEventMatches f)).map eventEntry
  (sortDescBy (fun e => e.timestamp) (tools ++ evs)).take (jsNum f.limit 200)

/-- The primary key of a timeline row: which table it came from plus the
row id there. -/
def timelineKey (e : TimelineEntry) : TimelineKind × Nat :=
  (e.kind, e.id)

/-- ASCII case folding; `toLowerCase` only needs to agree with JS on the
letters compared against the keyword `select`. -/
def asciiLower (c : Char) : Char :=
  if 'A' ≤ c ∧ c ≤ 'Z' then Char.ofNat (c.toNat + 32) else c

/-- JS `trim`: strip whitespace from both ends. -/
def trimChars (l : List Char) : List Char :=
  ((l.dropWhile Char.isWhitespace).reverse.dropWhile Char.isWhitespace).reverse

/-- The `agentarium_query_db` guard condition:
`query.trim().toLowerCase().startsWith("select")`. -/
def sqlAllowed (q : String) : Bool :=
  charsStartWith ((trimChars q.data).map asciiLower) "select".data

/-- A JSON-RPC error object as produced by the `handleRequest` catch
(code `-32603`, the thrown message). -/
structure RpcError where
  code : Int
  message : String
deriving DecidableEq

/-- The guarded raw-SQL read of the control plane
(`handleToolCall` case `agentarium_query_db`, surfaced through the
`handleRequest` catch): a rejected statement becomes an internal-error
response and nothing is written; an accepted statement is handed to the
storage engine, whose result rows are opaque here — the `.ok` value is
the SQL text executed.  The returned store is the store afterwards. -/
def handleQueryDb (q : String) (db : Db) : Db × Except RpcError String :=
  if sqlAllowed q then (db, Except.ok q)
  else (db, Except.error ⟨-32603, "Only SELECT queries are allowed"⟩)

/-- Inserting into a descending-sorted list permutes consing. -/
theorem insertDescBy_perm (key : α → Nat) (a : α) (l : List α) :
    (insertDescBy key a l).Perm (a :: l) := by
  induction l with
  | nil => simp [insertDescBy]
  | cons b t ih =>
    simp only [insertDescBy]
    split
    · exact List.Perm.refl _
    · exact (ih.cons b).trans (List.Perm.swap a b t)

/-- `sortDescBy` permutes its input. -/
theorem sortDescBy_perm (key : α → Nat) (l : List α) :
    (sortDescBy key l).Perm l := by
  induction l with
  | nil => simp [sortDescBy]
  | cons a t ih =>
    exact (insertDescBy_perm key a (sortDescBy key t)).trans (ih.cons a)

/-- Inserting keeps a descending-sorted list sorted. -/
theorem insertDescBy_sorted (key : α → Nat) (a : α) (l : List α)
    (h : l.Pairwise (fun x y => key y ≤ key x)) :
    (insertDescBy key a l).Pairwise (fun x y => key y ≤ key x) := by
  induction l with
  | nil => simp [insertDescBy]
  | cons b t ih =>
    rw [List.pairwise_cons] at h
    simp only [insertDescBy]
    split
    · rename_i hba
      refine List.pairwise_cons.mpr ⟨?_, List.pairwise_cons.mpr h⟩
      intro y hy
      rcases List.mem_cons.mp hy with rfl | hyt
      · exact hba
      · exact le_trans (h.1 y hyt) hba
    · rename_i hba
      refine List.pairwise_cons.mpr ⟨?_, ih h.2⟩
      intro y hy
      rcases List.mem_cons.mp ((insertDescBy_perm key a t).mem_iff.mp hy) with rfl | hyt
      · omega
      · exact h.1 y hyt

/-- The result of `sortDescBy` is sorted non-increasingly by the key. -/
theorem sortDescBy_sorted (key : α → Nat) (l : List α) :
    (sortDescBy key l).Pairwise (fun x y => key y ≤ key x) := by
  induction l with
  | nil => simp [sortDescBy]
  | cons a t ih => exact insertDescBy_sorted key a _ ih

/-- C8: the guarded raw-SQL operation.  A statement whose trimmed,
case-folded text does not start with "select" is rejected with the
internal-error response (code -32603, message "Only SELECT queries are
allowed") and the store is untouched; a statement that does start with
"select" is handed to the engine and its rows are returned.  In
particular "DROP TABLE sessions" is rejected and
"SELECT * FROM sessions LIMIT 1" is accepted. -/
theorem C8_query_guard (q : String) (db : Db) :
    (sqlAllowed q = false →
      handleQueryDb q db =
        (db, Except.error ⟨-32603, "Only SELECT queries are allowed"⟩)) ∧
    (sqlAllowed q = true → handleQueryDb q db = (db, Except.ok q)) ∧
    (handleQueryDb q db).1 = db ∧
    sqlAllowed "DROP TABLE sessions" = false ∧
    sqlAllowed "SELECT * FROM sessions LIMIT 1" = true := by
  refine ⟨?_, ?_, ?_, by decide, by decide⟩
  · intro h
    simp [handleQueryDb, h]
  · intro h
    simp [handleQueryDb, h]
  · by_cases h : sqlAllowed q <;> simp [handleQueryDb, h]

/-- C8 witness: the two scenario statements, evaluated concretely. -/
theorem C8_query_guard_witness :
    handleQueryDb "DROP TABLE sessions" emptyDb =
      (emptyDb, Except.error ⟨-32603, "Only SELECT queries are allowed"⟩) ∧
    handleQueryDb "SELECT * FROM sessions LIMIT 1" emptyDb =
      (emptyDb, Except.ok "SELECT * FROM sessions LIMIT 1") := by
  exact ⟨(C8_query_guard "DROP TABLE sessions" emptyDb).1 (by decide),
    (C8_query_guard "SELECT * FROM sessions LIMIT 1" emptyDb).2.1 (by decide)⟩

/-- A pending row surviving one sweep pass satisfies neither closing
condition, and a second pass leaves it untouched. -/
theorem sweep_fixed (S : List Session) (now : Nat) (t : ToolUse)
    (h : (sweepStale now (sweepEndedSession S now t)).status = ToolStatus.pending) :
    sweepStale now (sweepEndedSession S now t) = t ∧
      (t.status = ToolStatus.pending →
        (S.any (fun s => s.id == t.session_id && s.ended_at.isSome)) = false ∧
          ¬ t.started_at + staleMs < now) := by
  by_cases h1 : t.status = ToolStatus.pending ∧
      (S.any (fun s => s.id == t.session_id && s.ended_at.isSome)) = true
  · exfalso
    simp only [sweepEndedSession] at h
    rw [if_pos h1] at h
    simp only [sweepStale] at h
    split at h <;> simp_all
  · simp only [sweepEndedSession] at h ⊢
    rw [if_neg h1] at h ⊢
    by_cases h2 : t.status = ToolStatus.pending ∧ t.started_at + staleMs < now
    · exfalso
      simp only [sweepStale] at h
      rw [if_pos h2] at h
      simp_all
    · simp only [sweepStale] at h ⊢
      rw [if_neg h2] at h ⊢
      refine ⟨rfl, fun hp => ⟨?_, fun hs => h2 ⟨hp, hs⟩⟩⟩
      cases hB : S.any (fun s => s.id == t.session_id && s.ended_at.isSome) with
      | false => rfl
      | true => exact absurd ⟨hp, hB⟩ h1

/-- C7: the Stale-Recovery Sweep is idempotent at a fixed current time —
running it twice equals running it once, and after one run no pending row
has an ended owning session and no pending row is older than the one-hour
threshold, so the second run closes nothing. -/
theorem C7_sweep_idempotent (db : Db) (now : Nat) :
    cleanupStalePendingTools now (cleanupStalePendingTools now db) =
      cleanupStalePendingTools now db ∧
    (∀ t ∈ (cleanupStalePendingTools now db).tool_uses,
      t.status = ToolStatus.pending →
        ((cleanupStalePendingTools now db).sessions.any
            (fun s => s.id == t.session_id && s.ended_at.isSome)) = false ∧
          ¬ t.started_at + staleMs < now) := by
  have hmem : ∀ t ∈ (cleanupStalePendingTools now db).tool_uses,
      t.status = ToolStatus.pending →
        ((db.sessions.any (fun s => s.id == t.session_id && s.ended_at.isSome)) = false ∧
          ¬ t.started_at + staleMs < now) := by
    intro t ht hp
    simp only [cleanupStalePendingTools, List.map_map, List.mem_map, Function.comp] at ht
    obtain ⟨t0, _, rfl⟩ := ht
    have hfx := sweep_fixed db.sessions now t0 hp
    have ht0 : t0.status = ToolStatus.pending := by rw [hfx.1] at hp; exact hp
    rw [hfx.1]
    exact hfx.2 ht0
  refine ⟨?_, hmem⟩
  have hfix : ∀ t ∈ (cleanupStalePendingTools now db).tool_uses,
      sweepStale now (sweepEndedSession db.sessions now t) = t := by
    intro t ht
    by_cases hp : t.status = ToolStatus.pending
    · obtain ⟨hends, hstale⟩ := hmem t ht hp
      have h1 : ¬(t.status = ToolStatus.pending ∧
          (db.sessions.any (fun s => s.id == t.session_id && s.ended_at.isSome)) = true) := by
        intro hc
        rw [hends] at hc
        exact Bool.false_ne_true hc.2
      simp only [sweepEndedSession]
      rw [if_neg h1]
      simp only [sweepStale]
      rw [if_neg (fun hc => hstale hc.2)]
    · have h1 : ¬(t.status = ToolStatus.pending ∧
          (db.sessions.any (fun s => s.id == t.session_id && s.ended_at.isSome)) = true) :=
        fun hc => hp hc.1
      simp only [sweepEndedSession]
      rw [if_neg h1]
      simp only [sweepStale]
      rw [if_neg (fun hc => hp hc.1)]
  have key : ((cleanupStalePendingTools now db).tool_uses.map
        (sweepEndedSession db.sessions now)).map (sweepStale now) =
      (cleanupStalePendingTools now db).tool_uses := by
    rw [List.map_map]
    refine (List.map_congr_left ?_).trans (List.map_id _)
    intro t ht
    simpa [Function.comp] using hfix t ht
  show ({ cleanupStalePendingTools now db with
      tool_uses := ((cleanupStalePendingTools now db).tool_uses.map
        (sweepEndedSession db.sessions now)).map (sweepStale now) } : Db) =
    cleanupStalePendingTools now db
  rw [key]

/-- C7 witness: a store with one pending row of an ended session and one
stale pending row, swept twice at a concrete time. -/
theorem C7_sweep_idempotent_witness :
    cleanupStalePendingTools 7200000
        (cleanupStalePendingTools 7200000
          ⟨[⟨"S1", 0, some 10, none, none, none, none, none⟩], [],
            [⟨1, "S1", none, "Read", none, none, 5, none, none, ToolStatus.pending, none⟩,
             ⟨2, "S2", none, "Bash", none, none, 0, none, none, ToolStatus.pending, none⟩],
            [], 3, 1⟩) =
      cleanupStalePendingTools 7200000
        ⟨[⟨"S1", 0, some 10, none, none, none, none, none⟩], [],
          [⟨1, "S1", none, "Read", none, none, 5, none, none, ToolStatus.pending, none⟩,
           ⟨2, "S2", none, "Bash", none, none, 0, none, none, ToolStatus.pending, none⟩],
          [], 3, 1⟩ :=
  (C7_sweep_idempotent
    ⟨[⟨"S1", 0, some 10, none, none, none, none, none⟩], [],
      [⟨1, "S1", none, "Read", none, none, 5, none, none, ToolStatus.pending, none⟩,
       ⟨2, "S2", none, "Bash", none, none, 0, none, none, ToolStatus.pending, none⟩],
      [], 3, 1⟩ 7200000).1

/-- Rows surviving a membership-filter by a deleted key are exactly those
whose key is outside the deleted set. -/
theorem mem_filter_not_contains {α β : Type} [DecidableEq β] (l : List α) (key : α → β)
    (ids : List β) (b : β) (hb : b ∈ ids) (x : α)
    (hx : x ∈ l.filter (fun a => !(ids.contains (key a)))) : key x ≠ b := by
  obtain ⟨-, hcond⟩ := List.mem_filter.mp hx
  intro hkb
  have hmem : key x ∈ ids := hkb ▸ hb
  have : ids.contains (key x) = true := List.elem_eq_true_of_mem hmem
  rw [this] at hcond
  exact Bool.false_ne_true hcond

/-- C6: deleting a list of sessions removes every ToolUse, Event and Agent
row owned by each of them and the Session rows themselves; afterwards the
four read queries filtered by any deleted id return nothing (the query
helpers apply a filter only to a truthy, i.e. non-empty, id). -/
theorem C6_delete_cascade (ids : List String) (db : Db) (sid : String) (hsid : sid ∈ ids)
    (hne : ¬ sid.isEmpty) :
    (∀ t ∈ (deleteSessions ids db).tool_uses, t.session_id ≠ sid) ∧
    (∀ e ∈ (deleteSessions ids db).events, e.session_id ≠ sid) ∧
    (∀ a ∈ (deleteSessions ids db).agents, a.session_id ≠ sid) ∧
    (∀ s ∈ (deleteSessions ids db).sessions, s.id ≠ sid) ∧
    (∀ lim off, getToolUses ⟨some sid, none, none, none, lim, off⟩ (deleteSessions ids db) = []) ∧
    (∀ lim, getEvents ⟨some sid, none, none, lim⟩ (deleteSessions ids db) = []) ∧
    (∀ lim, getAgents (some sid) lim (deleteSessions ids db) = []) ∧
    (∀ lim off br, ∀ s ∈ getSessions lim off br (deleteSessions ids db), s.id ≠ sid) := by
  have hids : ¬ ids.isEmpty := by
    cases ids with
    | nil => cases hsid
    | cons a l => simp
  have hdel : deleteSessions ids db =
      { db with
        tool_uses := db.tool_uses.filter (fun t => !(ids.contains t.session_id)),
        events := db.events.filter (fun e => !(ids.contains e.session_id)),
        agents := db.agents.filter (fun a => !(ids.contains a.session_id)),
        sessions := db.sessions.filter (fun s => !(ids.contains s.id)) } := by
    rw [deleteSessions, if_neg hids]
  have htool : ∀ t ∈ (deleteSessions ids db).tool_uses, t.session_id ≠ sid := by
    rw [hdel]; exact fun t ht => mem_filter_not_contains _ _ ids sid hsid t ht
  have hev : ∀ e ∈ (deleteSessions ids db).events, e.session_id ≠ sid := by
    rw [hdel]; exact fun e he => mem_filter_not_contains _ _ ids sid hsid e he
  have hag : ∀ a ∈ (deleteSessions ids db).agents, a.session_id ≠ sid := by
    rw [hdel]; exact fun a ha => mem_filter_not_contains _ _ ids sid hsid a ha
  have hse : ∀ s ∈ (deleteSessions ids db).sessions, s.id ≠ sid := by
    rw [hdel]; exact fun s hs => mem_filter_not_contains _ _ ids sid hsid s hs
  refine ⟨htool, hev, hag, hse, ?_, ?_, ?_, ?_⟩
  · intro lim off
    have : (deleteSessions ids db).tool_uses.filter
        (toolUseMatches ⟨some sid, none, none, none, lim, off⟩) = [] := by
      rw [List.filter_eq_nil_iff]
      intro t ht
      simp only [toolUseMatches, jsStr, if_neg hne, Bool.and_eq_true, beq_iff_eq]
      intro hc
      exact htool t ht hc.1.1.1
    simp [getToolUses, this, sortDescBy]
  · intro lim
    have : (deleteSessions ids db).events.filter (eventMatches ⟨some sid, none, none, lim⟩) = [] := by
      rw [List.filter_eq_nil_iff]
      intro e he
      simp only [eventMatches, jsStr, if_neg hne, Bool.and_eq_true, beq_iff_eq]
      intro hc
      exact hev e he hc.1.1
    simp [getEvents, this, sortDescBy]
  · intro lim
    have : (deleteSessions ids db).agents.filter (fun a => a.session_id == sid) = [] := by
      rw [List.filter_eq_nil_iff]
      intro a ha
      simpa using hag a ha
    simp [getAgents, jsStr, if_neg hne, this, sortDescBy]
  · intro lim off br s hs
    have hsub : s ∈ (deleteSessions ids db).sessions := by
      simp only [getSessions] at hs
      have h1 := List.mem_of_mem_take hs
      have h2 := List.mem_of_mem_drop h1
      have h3 := (sortDescBy_perm (fun x : Session => x.started_at) _).mem_iff.mp h2
      cases hbr : jsStr br with
      | none => rw [hbr] at h3; exact h3
      | some b =>
        rw [hbr] at h3
        exact List.mem_of_mem_filter h3
    exact hse s hsub

/-- C6 witness: deleting the only session of a small concrete store. -/
theorem C6_delete_cascade_witness :
    (∀ t ∈ (deleteSessions ["S1"]
        ⟨[⟨"S1", 0, none, none, none, none, none, none⟩],
         [⟨"A1", "S1", none, some "reviewer", none, 1, none, AgentStatus.running⟩],
         [⟨1, "S1", some "A1", "Read", none, none, 2, none, none, ToolStatus.pending, none⟩],
         [⟨1, "S1", none, "agent_start", none, 1⟩], 2, 2⟩).tool_uses,
      t.session_id ≠ "S1") ∧
    (∀ lim, getAgents (some "S1") lim (deleteSessions ["S1"]
        ⟨[⟨"S1", 0, none, none, none, none, none, none⟩],
         [⟨"A1", "S1", none, some "reviewer", none, 1, none, AgentStatus.running⟩],
         [⟨1, "S1", some "A1", "Read", none, none, 2, none, none, ToolStatus.pending, none⟩],
         [⟨1, "S1", none, "agent_start", none, 1⟩], 2, 2⟩) = []) := by
  have h := C6_delete_cascade ["S1"]
    ⟨[⟨"S1", 0, none, none, none, none, none, none⟩],
     [⟨"A1", "S1", none, some "reviewer", none, 1, none, AgentStatus.running⟩],
     [⟨1, "S1", some "A1", "Read", none, none, 2, none, none, ToolStatus.pending, none⟩],
     [⟨1, "S1", none, "agent_start", none, 1⟩], 2, 2⟩ "S1" (by decide) (by decide)
  exact ⟨h.1, h.2.2.2.2.2.2.1⟩

/-- C10: neither SessionEnd nor the sweep (nor SessionStart, PostTool or
Stop) modifies any Agent row; PreTool only appends new rows, and the
appended rows are `running` with null `ended_at`; the only hook that
closes an Agent row is the SubagentStop pop, and every row it touches is
set to `completed` (never `interrupted`). -/
theorem C10_agent_frame (s : Sys) (db : Db) (now : Nat) (sid : String) (meta : SessionMeta)
    (out res : Option JVal) (err : Option String) (name : String) (input : Option JVal)
    (task : TaskInput) (genId : String) :
    (sessionEndHook now s).db.agents = s.db.agents ∧
    (cleanupStalePendingTools now db).agents = db.agents ∧
    (sessionStartHook sid meta now s).db.agents = s.db.agents ∧
    (postToolHook out err now s).db.agents = s.db.agents ∧
    (stopHook now s).db.agents = s.db.agents ∧
    (∃ extra, (preToolHook name input task genId now s).db.agents = s.db.agents ++ extra ∧
      ∀ a ∈ extra, a.status = AgentStatus.running ∧ a.ended_at = none) ∧
    (∃ f : Agent → Agent, (subagentStopHook res now s).db.agents = s.db.agents.map f ∧
      ∀ a : Agent, f a = a ∨
        f a = { a with status := AgentStatus.completed, ended_at := some now }) := by
  refine ⟨?_, rfl, rfl, ?_, ?_, ?_, ?_⟩
  · cases h : jsStr s.ctx.currentSessionId <;>
      simp [sessionEndHook, h, markPendingToolsInterrupted, recordEvent, endSession]
  · cases h : s.ctx.pendingToolUseId with
    | none => simp [postToolHook, h]
    | some tid =>
      by_cases h0 : tid = 0 <;> simp [postToolHook, h, h0, recordToolEnd]
  · cases h : jsStr s.ctx.currentSessionId <;> simp [stopHook, h, recordEvent]
  · cases h : jsStr s.ctx.currentSessionId with
    | none => exact ⟨[], by simp [preToolHook, h], by simp⟩
    | some sid' =>
      by_cases ht : name = "Task"
      · by_cases hdup : s.db.agents.any (fun b => b.id == genId)
        · refine ⟨[], ?_, by simp⟩
          simp [preToolHook, h, ht, createAgent, hdup]
        · refine ⟨[⟨genId, sid', jsStr s.ctx.currentAgentId,
            some ((jsStr task.subagent_type).getD "unknown"),
            jsOrStr task.description (task.prompt.map (fun p => p.take 100)),
            now, none, AgentStatus.running⟩], ?_, by simp⟩
          simp [preToolHook, h, ht, createAgent, hdup, recordEvent, recordToolStart]
      · refine ⟨[], ?_, by simp⟩
        simp [preToolHook, h, ht, recordToolStart]
  · cases h : jsStr s.ctx.currentSessionId with
    | none => exact ⟨id, by simp [subagentStopHook, h], fun a => Or.inl rfl⟩
    | some sid' =>
      cases hl : s.ctx.agentStack.getLast? with
      | none => exact ⟨id, by simp [subagentStopHook, h, hl], fun a => Or.inl rfl⟩
      | some completedId =>
        refine ⟨fun a => if a.id = completedId then
            { a with ended_at := some now, status := AgentStatus.completed } else a, ?_, ?_⟩
        · simp [subagentStopHook, h, hl, endAgent, recordEvent]
        · intro a
          by_cases hc : a.id = completedId
          · exact Or.inr (by simp [hc])
          · exact Or.inl (by simp [hc])

/-- C10 witness: the frame at a concrete state with one running agent. -/
theorem C10_agent_frame_witness :
    (sessionEndHook 9
        ⟨⟨[⟨"S1", 0, none, none, none, none, none, none⟩],
          [⟨"A1", "S1", none, some "reviewer", none, 1, none, AgentStatus.running⟩],
          [], [], 1, 1⟩, ⟨some "S1", some "A1", none, ["A1"]⟩⟩).db.agents =
      [⟨"A1", "S1", none, some "reviewer", none, 1, none, AgentStatus.running⟩] :=
  (C10_agent_frame
    ⟨⟨[⟨"S1", 0, none, none, none, none, none, none⟩],
      [⟨"A1", "S1", none, some "reviewer", none, 1, none, AgentStatus.running⟩],
      [], [], 1, 1⟩, ⟨some "S1", some "A1", none, ["A1"]⟩⟩
    emptyDb 9 "S2" {} none none none "Read" none {} "g").1

/-- C3: when `pendingToolUseId` is set (store ids start at 1, so the
marker is non-zero), the post-tool hook finalizes exactly that row —
`duration_ms = now - started_at`, status `error` iff a (non-empty)
explicit error field is present or the output is a string containing the
failure marker "error", else `success` — clears the marker and leaves
other rows untouched; when the marker is not set, nothing is written.
The §8 scenario SessionStart(S1) → Pre("Read") → Post(output "contents")
yields exactly one ToolUse row, for S1, tool "Read", status success,
duration 500 ms ≥ 0. -/
theorem C3_post_tool_finalize (s : Sys) (out : Option JVal) (err : Option String) (now : Nat) :
    (∀ tid, s.ctx.pendingToolUseId = some tid → tid ≠ 0 →
      (postToolHook out err now s).ctx.pendingToolUseId = none ∧
      (∀ t ∈ s.db.tool_uses, t.id = tid →
        ({ t with
            ended_at := some now,
            duration_ms := some (now - t.started_at),
            tool_output := out,
            status := if postHasError out err then ToolStatus.error else ToolStatus.success,
            error := jsStr err } : ToolUse) ∈ (postToolHook out err now s).db.tool_uses) ∧
      (∀ t ∈ s.db.tool_uses, t.id ≠ tid → t ∈ (postToolHook out err now s).db.tool_uses)) ∧
    (postHasError out err = true ↔
      ((jsStr err).isSome = true ∨ ∃ o, out = some (JVal.jstr o) ∧ strIncludes o "error" = true)) ∧
    (s.ctx.pendingToolUseId = none → postToolHook out err now s = s) ∧
    (postToolHook (some (JVal.jstr "contents")) none 2000
        (preToolHook "Read" (some JVal.jother) {} "g" 1500
          (sessionStartHook "S1" {} 1000 initialSys))).db.tool_uses =
      [⟨1, "S1", none, "Read", some JVal.jother, some (JVal.jstr "contents"), 1500,
        some 2000, some 500, ToolStatus.success, none⟩] := by
  refine ⟨?_, ?_, ?_, by decide⟩
  · intro tid htid h0
    refine ⟨by simp [postToolHook, htid, h0], ?_, ?_⟩
    · intro t ht hteq
      simp only [postToolHook, htid, if_neg h0, recordToolEnd]
      have := List.mem_map_of_mem (fun t : ToolUse =>
        if t.id = tid then
          ({ t with
              ended_at := some now,
              duration_ms := some (now - t.started_at),
              tool_output := out,
              status := if postHasError out err then ToolStatus.error else ToolStatus.success,
              error := jsStr err } : ToolUse)
        else t) ht
      simpa [hteq] using this
    · intro t ht hteq
      simp only [postToolHook, htid, if_neg h0, recordToolEnd]
      have := List.mem_map_of_mem (fun t : ToolUse =>
        if t.id = tid then
          ({ t with
              ended_at := some now,
              duration_ms := some (now - t.started_at),
              tool_output := out,
              status := if postHasError out err then ToolStatus.error else ToolStatus.success,
              error := jsStr err } : ToolUse)
        else t) ht
      simpa [hteq] using this
  · cases out with
    | none => simp [postHasError]
    | some v =>
      cases v with
      | jstr o => simp [postHasError]
      | jother => simp [postHasError]
  · intro h
    simp [postToolHook, h]

/-- C3 witness: the finalize branch applied at a concrete state with one
pending row. -/
theorem C3_post_tool_finalize_witness :
    (postToolHook (some (JVal.jstr "all good")) none 2500
        ⟨⟨[⟨"S1", 1000, none, none, none, none, none, none⟩], [],
          [⟨1, "S1", none, "Read", none, none, 1500, none, none, ToolStatus.pending, none⟩],
          [], 2, 1⟩, ⟨some "S1", none, some 1, []⟩⟩).ctx.pendingToolUseId = none := by
  have h := (C3_post_tool_finalize
    ⟨⟨[⟨"S1", 1000, none, none, none, none, none, none⟩], [],
      [⟨1, "S1", none, "Read", none, none, 1500, none, none, ToolStatus.pending, none⟩],
      [], 2, 1⟩, ⟨some "S1", none, some 1, []⟩⟩
    (some (JVal.jstr "all good")) none 2500).1 1 rfl (by decide)
  exact h.1

/-- C1 counterexample: starting a session and invoking the spawn-capable
tool "Task" creates and pushes exactly agent "A1" (it becomes the current
agent), yet the ToolUse row inserted by the same invocation carries
`agent_id = none`, not `some "A1"` — the hook passes the context value
read before the push. -/
theorem C1_task_attribution_counterexample :
    ((preToolHook "Task" none ⟨some "reviewer", some "check x", none⟩ "A1" 1500
        (sessionStartHook "S1" {} 1000 initialSys)).db.agents.map Agent.id = ["A1"]) ∧
    ((preToolHook "Task" none ⟨some "reviewer", some "check x", none⟩ "A1" 1500
        (sessionStartHook "S1" {} 1000 initialSys)).ctx.agentStack = ["A1"]) ∧
    ((preToolHook "Task" none ⟨some "reviewer", some "check x", none⟩ "A1" 1500
        (sessionStartHook "S1" {} 1000 initialSys)).ctx.currentAgentId = some "A1") ∧
    ((preToolHook "Task" none ⟨some "reviewer", some "check x", none⟩ "A1" 1500
        (sessionStartHook "S1" {} 1000 initialSys)).db.tool_uses.map ToolUse.agent_id = [none]) ∧
    (none : Option String) ≠ some "A1" := by
  decide

/-- C1 as amended: during an open session, the Task pre-invocation
unconditionally inserts one ToolUse row with status pending, records its
id as `pendingToolUseId`, and attributes it to (session, current agent at
hook entry) — i.e. to the parent of the agent it creates and pushes — not
to the newly pushed agent; the Context Store's current agent afterwards
is the new agent. -/
theorem C1_task_attribution (s : Sys) (sid : String) (input : Option JVal) (task : TaskInput)
    (genId : String) (now : Nat)
    (hsid : jsStr s.ctx.currentSessionId = some sid)
    (hfresh : s.db.agents.any (fun b => b.id == genId) = false) :
    ∃ t : ToolUse,
      (preToolHook "Task" input task genId now s).db.tool_uses = s.db.tool_uses ++ [t] ∧
      (preToolHook "Task" input task genId now s).ctx.pendingToolUseId = some t.id ∧
      t.status = ToolStatus.pending ∧
      t.session_id = sid ∧
      t.agent_id = jsStr s.ctx.currentAgentId ∧
      (∃ A ∈ (preToolHook "Task" input task genId now s).db.agents,
        A.id = genId ∧ A.parent_agent_id = jsStr s.ctx.currentAgentId) ∧
      (preToolHook "Task" input task genId now s).ctx.currentAgentId = some genId ∧
      (preToolHook "Task" input task genId now s).ctx.agentStack = s.ctx.agentStack ++ [genId] := by
  refine ⟨⟨s.db.nextToolUseId, sid, jsStr s.ctx.currentAgentId, "Task", input, none, now,
    none, none, ToolStatus.pending, none⟩, ?_, ?_, rfl, rfl, rfl, ?_, ?_, ?_⟩
  · simp [preToolHook, hsid, createAgent, hfresh, recordEvent, recordToolStart]
  · simp [preToolHook, hsid, createAgent, hfresh, recordEvent, recordToolStart]
  · simp only [preToolHook, hsid, createAgent, hfresh]
    simp [recordEvent, recordToolStart]
    exact ⟨_, Or.inr rfl, rfl, rfl⟩
  · simp [preToolHook, hsid, createAgent, hfresh, recordEvent, recordToolStart]
  · simp [preToolHook, hsid, createAgent, hfresh, recordEvent, recordToolStart]

/-- C1 witness: the amended attribution at the state right after
SessionStart. -/
theorem C1_task_attribution_witness :
    ∃ t : ToolUse, t.status = ToolStatus.pending ∧ t.session_id = "S1" ∧ t.agent_id = none := by
  obtain ⟨t, -, -, h3, h4, h5, -, -, -⟩ :=
    C1_task_attribution (sessionStartHook "S1" {} 1000 initialSys) "S1" none {} "A1" 1500
      (by decide) (by decide)
  exact ⟨t, h3, h4, by rw [h5]; rfl⟩

/-- One paired pre/post tool invocation, with its hook inputs. -/
structure PrePost where
  toolName : String
  toolInput : Option JVal
  task : TaskInput
  genId : String
  preNow : Nat
  output : Option JVal
  err : Option String
  postNow : Nat

/-- Run one pre/post pair. -/
def runPair (s : Sys) (p : PrePost) : Sys :=
  postToolHook p.output p.err p.postNow
    (preToolHook p.toolName p.toolInput p.task p.genId p.preNow s)

/-- Run a sequence of paired pre/post invocations. -/
def runPairs (l : List PrePost) (s : Sys) : Sys :=
  l.foldl runPair s

/-- The pre-tool hook never changes the tracked session id. -/
theorem preTool_currentSessionId (n : String) (i : Option JVal) (t : TaskInput)
    (g : String) (now : Nat) (s : Sys) :
    (preToolHook n i t g now s).ctx.currentSessionId = s.ctx.currentSessionId := by
  cases h : jsStr s.ctx.currentSessionId with
  | none => simp [preToolHook, h]
  | some sid =>
    by_cases ht : n = "Task"
    · by_cases hdup : s.db.agents.any (fun b => b.id == g)
      · simp [preToolHook, h, ht, createAgent, hdup]
      · simp [preToolHook, h, ht, createAgent, hdup, recordEvent, recordToolStart]
    · simp [preToolHook, h, ht, recordToolStart]

/-- The post-tool hook never changes the tracked session id. -/
theorem postTool_currentSessionId (o : Option JVal) (e : Option String) (now : Nat) (s : Sys) :
    (postToolHook o e now s).ctx.currentSessionId = s.ctx.currentSessionId := by
  cases h : s.ctx.pendingToolUseId with
  | none => simp [postToolHook, h]
  | some tid =>
    by_cases h0 : tid = 0
    · simp [postToolHook, h, h0]
    · simp [postToolHook, h, h0, recordToolEnd]

/-- A pre/post pair never changes the tracked session id. -/
theorem runPair_currentSessionId (s : Sys) (p : PrePost) :
    (runPair s p).ctx.currentSessionId = s.ctx.currentSessionId := by
  rw [runPair, postTool_currentSessionId, preTool_currentSessionId]

/-- A sequence of pairs never changes the tracked session id. -/
theorem runPairs_currentSessionId (l : List PrePost) (s : Sys) :
    (runPairs l s).ctx.currentSessionId = s.ctx.currentSessionId := by
  induction l generalizing s with
  | nil => rfl
  | cons p rest ih =>
    show (runPairs rest (runPair s p)).ctx.currentSessionId = s.ctx.currentSessionId
    rw [ih, runPair_currentSessionId]

/-- C4: after any sequence of paired pre/post invocations in one open
session followed by SessionEnd, no ToolUse row of that session is still
pending, and every row of the session that was pending when SessionEnd
fired is afterwards `interrupted` with a non-null `ended_at`. -/
theorem C4_session_end_no_pending (pairs : List PrePost) (s : Sys) (sid : String) (now : Nat)
    (hsid : jsStr s.ctx.currentSessionId = some sid) :
    (∀ t ∈ (sessionEndHook now (runPairs pairs s)).db.tool_uses,
      t.session_id = sid → t.status ≠ ToolStatus.pending) ∧
    (∀ t ∈ (runPairs pairs s).db.tool_uses,
      t.session_id = sid → t.status = ToolStatus.pending →
        ∃ t' ∈ (sessionEndHook now (runPairs pairs s)).db.tool_uses,
          t'.id = t.id ∧ t'.status = ToolStatus.interrupted ∧ t'.ended_at = some now) := by
  have hmid : jsStr (runPairs pairs s).ctx.currentSessionId = some sid := by
    rw [runPairs_currentSessionId]; exact hsid
  have htls : (sessionEndHook now (runPairs pairs s)).db.tool_uses =
      (runPairs pairs s).db.tool_uses.map (fun t =>
        if t.session_id = sid ∧ t.status = ToolStatus.pending then
          { t with ended_at := some now, duration_ms := some (now - t.started_at),
                   status := ToolStatus.interrupted,
                   error := some "Session ended before tool completed" }
        else t) := by
    simp [sessionEndHook, hmid, markPendingToolsInterrupted, recordEvent, endSession]
  constructor
  · intro t ht hsess
    rw [htls] at ht
    obtain ⟨t0, _, rfl⟩ := List.mem_map.mp ht
    by_cases hc : t0.session_id = sid ∧ t0.status = ToolStatus.pending
    · rw [if_pos hc]
      intro hcon
      exact ToolStatus.noConfusion hcon
    · rw [if_neg hc]
      rw [if_neg hc] at hsess
      intro hpend
      exact hc ⟨hsess, hpend⟩
  · intro t ht hsess hpend
    refine ⟨{ t with
        ended_at := some now,
        duration_ms := some (now - t.started_at),
        status := ToolStatus.interrupted,
        error := some "Session ended before tool completed" }, ?_, rfl, rfl, rfl⟩
    rw [htls]
    have := List.mem_map_of_mem (fun t : ToolUse =>
      if t.session_id = sid ∧ t.status = ToolStatus.pending then
        { t with ended_at := some now, duration_ms := some (now - t.started_at),
                 status := ToolStatus.interrupted,
                 error := some "Session ended before tool completed" }
      else t) ht
    simpa [hsess, hpend] using this

/-- C4 witness: a concrete state with one pending row of the open session
S1; SessionEnd closes it as interrupted with ended_at set. -/
theorem C4_session_end_no_pending_witness :
    ∃ t' ∈ (sessionEndHook 3000 (runPairs []
        ⟨⟨[⟨"S1", 1000, none, none, none, none, none, none⟩], [],
          [⟨1, "S1", none, "Read", none, none, 1500, none, none, ToolStatus.pending, none⟩],
          [], 2, 1⟩, ⟨some "S1", none, some 1, []⟩⟩)).db.tool_uses,
      t'.id = 1 ∧ t'.status = ToolStatus.interrupted ∧ t'.ended_at = some 3000 :=
  (C4_session_end_no_pending []
    ⟨⟨[⟨"S1", 1000, none, none, none, none, none, none⟩], [],
      [⟨1, "S1", none, "Read", none, none, 1500, none, none, ToolStatus.pending, none⟩],
      [], 2, 1⟩, ⟨some "S1", none, some 1, []⟩⟩ "S1" 3000 (by decide)).2
    ⟨1, "S1", none, "Read", none, none, 1500, none, none, ToolStatus.pending, none⟩
    (by decide) (by decide) (by decide)

/-- C2: the timeline of a session (and any time range) is sorted
non-increasingly by timestamp; its primary keys — (side, row id) pairs —
contain no duplicates and, whenever the limit does not truncate, are
exactly the union of the ToolUse and Event keys that pass the identical
session/time-range filters of the two sides; its length is the merged
match count truncated to the limit. -/
theorem C2_timeline (f : TimelineFilters) (db : Db)
    (htn : (db.tool_uses.map ToolUse.id).Nodup)
    (hen : (db.events.map Event.id).Nodup)
    (hlim : (db.tool_uses.filter (tlToolMatches f)).length
        + (db.events.filter (tlEventMatches f)).length ≤ jsNum f.limit 200) :
    (getTimeline f db).Pairwise (fun a b => b.timestamp ≤ a.timestamp) ∧
    ((getTimeline f db).map timelineKey).Nodup ∧
    ((getTimeline f db).map timelineKey).Perm
      ((db.tool_uses.filter (tlToolMatches f)).map (fun t => (TimelineKind.tool, t.id)) ++
        (db.events.filter (tlEventMatches f)).map (fun e => (TimelineKind.event, e.id))) ∧
    (getTimeline f db).length =
      min (jsNum f.limit 200)
        ((db.tool_uses.filter (tlToolMatches f)).length
          + (db.events.filter (tlEventMatches f)).length) := by
  have h1 : (timelineKey ∘ toolEntry) = (fun t : ToolUse => (TimelineKind.tool, t.id)) := rfl
  have h2 : (timelineKey ∘ eventEntry) = (fun e : Event => (TimelineKind.event, e.id)) := rfl
  have hperm : (sortDescBy (fun e => e.timestamp)
      ((db.tool_uses.filter (tlToolMatches f)).map toolEntry ++
        (db.events.filter (tlEventMatches f)).map eventEntry)).Perm
      ((db.tool_uses.filter (tlToolMatches f)).map toolEntry ++
        (db.events.filter (tlEventMatches f)).map eventEntry) :=
    sortDescBy_perm _ _
  have hfull : getTimeline f db = sortDescBy (fun e => e.timestamp)
      ((db.tool_uses.filter (tlToolMatches f)).map toolEntry ++
        (db.events.filter (tlEventMatches f)).map eventEntry) := by
    rw [getTimeline]
    apply List.take_of_length_le
    rw [hperm.length_eq, List.length_append, List.length_map, List.length_map]
    exact hlim
  have hkeys : (((db.tool_uses.filter (tlToolMatches f)).map toolEntry ++
      (db.events.filter (tlEventMatches f)).map eventEntry).map timelineKey).Nodup := by
    rw [List.map_append, List.map_map, List.map_map, h1, h2]
    have hft : ((db.tool_uses.filter (tlToolMatches f)).map ToolUse.id).Nodup :=
      htn.sublist ((List.filter_sublist db.tool_uses).map ToolUse.id)
    have hfe : ((db.events.filter (tlEventMatches f)).map Event.id).Nodup :=
      hen.sublist ((List.filter_sublist db.events).map Event.id)
    have hmt : ((db.tool_uses.filter (tlToolMatches f)).map
        (fun t : ToolUse => (TimelineKind.tool, t.id))).Nodup := by
      have : (fun t : ToolUse => (TimelineKind.tool, t.id)) =
          (Prod.mk TimelineKind.tool) ∘ ToolUse.id := rfl
      rw [this, ← List.map_map]
      exact hft.map (fun a b hab => congrArg Prod.snd hab)
    have hme : ((db.events.filter (tlEventMatches f)).map
        (fun e : Event => (TimelineKind.event, e.id))).Nodup := by
      have : (fun e : Event => (TimelineKind.event, e.id)) =
          (Prod.mk TimelineKind.event) ∘ Event.id := rfl
      rw [this, ← List.map_map]
      exact hfe.map (fun a b hab => congrArg Prod.snd hab)
    refine hmt.append hme ?_
    intro a hat hae
    obtain ⟨t, -, rfl⟩ := List.mem_map.mp hat
    obtain ⟨e, -, he⟩ := List.mem_map.mp hae
    exact TimelineKind.noConfusion (congrArg Prod.fst he)
  refine ⟨?_, ?_, ?_, ?_⟩
  · rw [hfull]
    exact sortDescBy_sorted _ _
  · rw [hfull]
    exact ((hperm.map timelineKey).nodup_iff).mpr hkeys
  · rw [hfull]
    refine (hperm.map timelineKey).trans ?_
    rw [List.map_append, List.map_map, List.map_map, h1, h2]
  · rw [hfull, hperm.length_eq, List.length_append, List.length_map, List.length_map]
    omega

/-- C2 witness: a store with one matching tool use and one matching event
plus one row of another session, queried for S1. -/
theorem C2_timeline_witness :
    ((getTimeline ⟨some "S1", none, none, none⟩
        ⟨[], [],
          [⟨1, "S1", none, "Read", none, none, 5, none, none, ToolStatus.pending, none⟩,
           ⟨2, "S2", none, "Bash", none, none, 7, none, none, ToolStatus.pending, none⟩],
          [⟨1, "S1", none, "session_end", none, 9⟩], 3, 2⟩).map timelineKey).Perm
      (([⟨1, "S1", none, "Read", none, none, 5, none, none, ToolStatus.pending, none⟩,
         ⟨2, "S2", none, "Bash", none, none, 7, none, none, ToolStatus.pending, none⟩].filter
          (tlToolMatches ⟨some "S1", none, none, none⟩)).map
            (fun t => (TimelineKind.tool, t.id)) ++
        ([⟨1, "S1", none, "session_end", none, 9⟩].filter
          (tlEventMatches ⟨some "S1", none, none, none⟩)).map
            (fun e => (TimelineKind.event, e.id))) :=
  (C2_timeline ⟨some "S1", none, none, none⟩
    ⟨[], [],
      [⟨1, "S1", none, "Read", none, none, 5, none, none, ToolStatus.pending, none⟩,
       ⟨2, "S2", none, "Bash", none, none, 7, none, none, ToolStatus.pending, none⟩],
      [⟨1, "S1", none, "session_end", none, 9⟩], 3, 2⟩
    (by decide) (by decide) (by decide)).2.2.1

/-- Number of open (`ended_at` null) Session rows in the store. -/
def openSessionCount (db : Db) : Nat :=
  (db.sessions.filter (fun ss => ss.ended_at.isNone)).length

/-- C9 counterexample: two SessionStarts with no SessionEnd between them —
a reachable store state with two open Session rows, refuting "at most one
Session row is open in every reachable state". -/
theorem C9_open_sessions_counterexample :
    Reachable (runHooks [HookCall.start "A" {} 0, HookCall.start "B" {} 1] initialSys) ∧
    openSessionCount
      (runHooks [HookCall.start "A" {} 0, HookCall.start "B" {} 1] initialSys).db = 2 :=
  ⟨⟨[HookCall.start "A" {} 0, HookCall.start "B" {} 1], rfl⟩, by decide⟩

/-- The hook calls that may appear between a SessionStart and its
SessionEnd in the assumed delivery order. -/
inductive MidCall : HookCall → Prop
  | pre (n : String) (i : Option JVal) (t : TaskInput) (g : String) (now : Nat) :
      MidCall (HookCall.pre n i t g now)
  | post (o : Option JVal) (e : Option String) (now : Nat) : MidCall (HookCall.post o e now)
  | substop (r : Option JVal) (now : Nat) : MidCall (HookCall.substop r now)
  | stop (now : Nat) : MidCall (HookCall.stop now)

/-- Traces respecting the ordering assumption the Correlator depends on:
a (non-empty-id) SessionStart, mid-session calls, its SessionEnd, then the
next block; the final block may still be open. -/
inductive Compliant : List HookCall → Prop
  | nil : Compliant []
  | closed (sid : String) (meta : SessionMeta) (now : Nat) (mids : List HookCall)
      (endNow : Nat) (rest : List HookCall) (hsid : ¬ sid.isEmpty)
      (hm : ∀ c ∈ mids, MidCall c) (hr : Compliant rest) :
      Compliant (HookCall.start sid meta now :: (mids ++ HookCall.endSess endNow :: rest))
  | current (sid : String) (meta : SessionMeta) (now : Nat) (mids : List HookCall)
      (hsid : ¬ sid.isEmpty) (hm : ∀ c ∈ mids, MidCall c) :
      Compliant (HookCall.start sid meta now :: mids)

/-- Mid-session hooks never touch the sessions table or the tracked
session id. -/
theorem midCall_frame (c : HookCall) (hc : MidCall c) (s : Sys) :
    (applyHook c s).db.sessions = s.db.sessions ∧
    (applyHook c s).ctx.currentSessionId = s.ctx.currentSessionId := by
  cases hc with
  | pre n i t g now =>
    refine ⟨?_, preTool_currentSessionId n i t g now s⟩
    cases h : jsStr s.ctx.currentSessionId with
    | none => simp [applyHook, preToolHook, h]
    | some sid =>
      by_cases ht : n = "Task"
      · by_cases hdup : s.db.agents.any (fun b => b.id == g)
        · simp [applyHook, preToolHook, h, ht, createAgent, hdup]
        · simp [applyHook, preToolHook, h, ht, createAgent, hdup, recordEvent, recordToolStart]
      · simp [applyHook, preToolHook, h, ht, recordToolStart]
  | post o e now =>
    refine ⟨?_, postTool_currentSessionId o e now s⟩
    cases h : s.ctx.pendingToolUseId with
    | none => simp [applyHook, postToolHook, h]
    | some tid =>
      by_cases h0 : tid = 0
      · simp [applyHook, postToolHook, h, h0]
      · simp [applyHook, postToolHook, h, h0, recordToolEnd]
  | substop r now =>
    constructor <;>
    · cases h : jsStr s.ctx.currentSessionId with
      | none => simp [applyHook, subagentStopHook, h]
      | some sid =>
        cases hl : s.ctx.agentStack.getLast? with
        | none => simp [applyHook, subagentStopHook, h, hl]
        | some cid => simp [applyHook, subagentStopHook, h, hl, endAgent, recordEvent]
  | stop now =>
    constructor <;>
    · cases h : jsStr s.ctx.currentSessionId with
      | none => simp [applyHook, stopHook, h]
      | some sid => simp [applyHook, stopHook, h, recordEvent]

/-- A run of mid-session hooks never touches the sessions table or the
tracked session id. -/
theorem runMids_frame (mids : List HookCall) (hm : ∀ c ∈ mids, MidCall c) (s : Sys) :
    (runHooks mids s).db.sessions = s.db.sessions ∧
    (runHooks mids s).ctx.currentSessionId = s.ctx.currentSessionId := by
  induction mids generalizing s with
  | nil => exact ⟨rfl, rfl⟩
  | cons c rest ih =>
    have h1 := midCall_frame c (hm c (List.mem_cons_self c rest)) s
    have h2 := ih (fun d hd => hm d (List.mem_cons_of_mem c hd)) (applyHook c s)
    exact ⟨h2.1.trans h1.1, h2.2.trans h1.2⟩

/-- SessionStart replaces any row with the same id and appends a fresh
open row; the sweep it runs first does not touch sessions. -/
theorem start_sessions (sid : String) (meta : SessionMeta) (now : Nat) (s : Sys) :
    (sessionStartHook sid meta now s).db.sessions =
      s.db.sessions.filter (fun ss => !(ss.id == sid)) ++
        [⟨sid, now, none, jsStr meta.projectRoot, jsStr meta.workingDirectory,
          jsStr meta.model, jsStr meta.gitBranch, meta.metadata⟩] := rfl

/-- Along a compliant trace from a store whose sessions are all closed,
at most one Session row is ever open. -/
theorem compliant_runs_bounded (tr : List HookCall) (htr : Compliant tr) :
    ∀ s : Sys, (∀ ss ∈ s.db.sessions, ss.ended_at ≠ none) →
      openSessionCount (runHooks tr s).db ≤ 1 := by
  induction htr with
  | nil =>
    intro s hs
    have : s.db.sessions.filter (fun ss => ss.ended_at.isNone) = [] :=
      List.filter_eq_nil_iff.mpr (fun ss hss => by simpa using hs ss hss)
    simp [runHooks, openSessionCount, this]
  | closed sid meta now mids endNow rest hsid hm hr ih =>
    intro s hs
    have hsplit : runHooks (HookCall.start sid meta now ::
          (mids ++ HookCall.endSess endNow :: rest)) s
        = runHooks rest (sessionEndHook endNow
            (runHooks mids (sessionStartHook sid meta now s))) := by
      show runHooks (mids ++ HookCall.endSess endNow :: rest)
          (sessionStartHook sid meta now s) = _
      rw [runHooks, List.foldl_append]
      rfl
    rw [hsplit]
    apply ih
    have hmid := runMids_frame mids hm (sessionStartHook sid meta now s)
    have hsid2 : jsStr (runHooks mids (sessionStartHook sid meta now s)).ctx.currentSessionId
        = some sid := by
      rw [hmid.2]
      show jsStr (some sid) = some sid
      simp [jsStr, hsid]
    have hsess3 : (sessionEndHook endNow
          (runHooks mids (sessionStartHook sid meta now s))).db.sessions
        = (runHooks mids (sessionStartHook sid meta now s)).db.sessions.map
            (fun ss => if ss.id = sid then { ss with ended_at := some endNow } else ss) := by
      simp [sessionEndHook, hsid2, markPendingToolsInterrupted, recordEvent, endSession]
    intro ss hss
    rw [hsess3] at hss
    obtain ⟨ss0, hss0, rfl⟩ := List.mem_map.mp hss
    by_cases hid : ss0.id = sid
    · rw [if_pos hid]
      simp
    · rw [if_neg hid]
      rw [hmid.1, start_sessions] at hss0
      rcases List.mem_append.mp hss0 with h1 | h2
      · exact hs ss0 (List.mem_of_mem_filter h1)
      · exfalso
        simp only [List.mem_singleton] at h2
        exact hid (by rw [h2])
  | current sid meta now mids hsid hm =>
    intro s hs
    have hstep : runHooks (HookCall.start sid meta now :: mids) s
        = runHooks mids (sessionStartHook sid meta now s) := rfl
    rw [hstep, openSessionCount,
      (runMids_frame mids hm (sessionStartHook sid meta now s)).1, start_sessions,
      List.filter_append]
    have hold : (s.db.sessions.filter (fun ss => !(ss.id == sid))).filter
        (fun ss => ss.ended_at.isNone) = [] := by
      rw [List.filter_eq_nil_iff]
      intro ss hss
      simpa using hs ss (List.mem_of_mem_filter hss)
    rw [hold]
    simp

/-- C9 as amended: over traces that respect the ordering assumption the
Correlator depends on (each session receives its SessionEnd before the
next SessionStart; the last session may still be open), at most one
Session row is open at a time.  Without that assumption the property
fails: SessionStart does not close a previous open session (see the
counterexample). -/
theorem C9_open_sessions (tr : List HookCall) (htr : Compliant tr) :
    openSessionCount (runHooks tr initialSys).db ≤ 1 :=
  compliant_runs_bounded tr htr initialSys (fun ss hss => absurd hss (by simp [initialSys, emptyDb]))

/-- C9 witness: a closed session block followed by a still-open one. -/
theorem C9_open_sessions_witness :
    openSessionCount (runHooks
      [HookCall.start "A" {} 0, HookCall.stop 1, HookCall.endSess 2, HookCall.start "B" {} 3]
      initialSys).db ≤ 1 := by
  have htr : Compliant
      [HookCall.start "A" {} 0, HookCall.stop 1, HookCall.endSess 2, HookCall.start "B" {} 3] := by
    have h := Compliant.closed "A" {} 0 [HookCall.stop 1] 2 [HookCall.start "B" {} 3]
      (by decide)
      (by intro c hc
          simp only [List.mem_singleton] at hc
          rw [hc]
          exact MidCall.stop 1)
      (Compliant.current "B" {} 3 [] (by decide) (by intro c hc; cases hc))
    simpa using h
  exact C9_open_sessions _ htr

/-- Following `parent_agent_id` from an (optional) parent pointer: does
the chain reach null within `fuel` dereferences, resolving ids in the
agents table? -/
def chainReachesNone (l : List Agent) : Option String → Nat → Bool
  | none, _ => true
  | some _, 0 => false
  | some p, fuel + 1 =>
    match l.find? (fun a => a.id == p) with
    | none => false
    | some a => chainReachesNone l a.parent_agent_id fuel

/-- `parent_agent_id`, when set, names an agent created earlier (agents
are only ever appended, so list order is creation order) in the same
session. -/
def ParentEarlier (l : List Agent) : Prop :=
  ∀ i (hi : i < l.length) (p : String), (l.get ⟨i, hi⟩).parent_agent_id = some p →
    ∃ j, ∃ hj : j < l.length, j < i ∧ (l.get ⟨j, hj⟩).id = p ∧
      (l.get ⟨j, hj⟩).session_id = (l.get ⟨i, hi⟩).session_id

/-- More fuel never hurts the chain check. -/
theorem chain_mono (l : List Agent) :
    ∀ fuel fuel', fuel ≤ fuel' → ∀ p, chainReachesNone l p fuel = true →
      chainReachesNone l p fuel' = true := by
  intro fuel
  induction fuel with
  | zero =>
    intro fuel' h p hp
    cases p with
    | none => cases fuel' <;> simp [chainReachesNone]
    | some q => simp [chainReachesNone] at hp
  | succ k ih =>
    intro fuel' h p hp
    cases p with
    | none => cases fuel' <;> simp [chainReachesNone]
    | some q =>
      cases fuel' with
      | zero => omega
      | succ k' =>
        cases hf : l.find? (fun a => a.id == q) with
        | none =>
          simp only [chainReachesNone, hf] at hp
          exact absurd hp (by simp)
        | some a =>
          simp only [chainReachesNone, hf] at hp ⊢
          exact ih k' (by omega) a.parent_agent_id hp

/-- A successful `find?` is stable under appending rows. -/
theorem find?_append_some {α : Type} {l₁ l₂ : List α} {p : α → Bool} {a : α}
    (h : l₁.find? p = some a) : (l₁ ++ l₂).find? p = some a := by
  induction l₁ with
  | nil => exact absurd h (by simp)
  | cons x xs ih =>
    cases hx : p x with
    | true =>
      simp only [List.cons_append, List.find?, hx] at h ⊢
      exact h
    | false =>
      simp only [List.cons_append, List.find?, hx] at h ⊢
      exact ih h

/-- Chains that resolve in a table still resolve after appending rows. -/
theorem chain_append (l l₂ : List Agent) :
    ∀ fuel p, chainReachesNone l p fuel = true →
      chainReachesNone (l ++ l₂) p fuel = true := by
  intro fuel
  induction fuel with
  | zero =>
    intro p hp
    cases p with
    | none => simp [chainReachesNone]
    | some q => simp [chainReachesNone] at hp
  | succ k ih =>
    intro p hp
    cases p with
    | none => simp [chainReachesNone]
    | some q =>
      cases hf : l.find? (fun a => a.id == q) with
      | none =>
        simp only [chainReachesNone, hf] at hp
        exact absurd hp (by simp)
      | some a =>
        simp only [chainReachesNone, hf] at hp
        simp only [chainReachesNone, find?_append_some hf]
        exact ih a.parent_agent_id hp

/-- Chains are preserved by per-row updates that keep `id` and
`parent_agent_id` (such as `endAgent`). -/
theorem chain_map (l : List Agent) (u : Agent → Agent)
    (hid : ∀ a, (u a).id = a.id) (hpar : ∀ a, (u a).parent_agent_id = a.parent_agent_id) :
    ∀ fuel p, chainReachesNone l p fuel = true →
      chainReachesNone (l.map u) p fuel = true := by
  have hfind : ∀ q, (l.map u).find? (fun a => a.id == q) =
      (l.find? (fun a => a.id == q)).map u := by
    intro q
    induction l with
    | nil => rfl
    | cons x xs ih =>
      cases hx : (x.id == q) with
      | true => simp [List.find?, hid x, hx]
      | false =>
        simp only [List.map_cons, List.find?, hid x, hx]
        exact ih
  intro fuel
  induction fuel with
  | zero =>
    intro p hp
    cases p with
    | none => simp [chainReachesNone]
    | some q => simp [chainReachesNone] at hp
  | succ k ih =>
    intro p hp
    cases p with
    | none => simp [chainReachesNone]
    | some q =>
      cases hf : l.find? (fun a => a.id == q) with
      | none =>
        simp only [chainReachesNone, hf] at hp
        exact absurd hp (by simp)
      | some a =>
        simp only [chainReachesNone, hf] at hp
        have hf2 : (l.map u).find? (fun b => b.id == q) = some (u a) := by
          rw [hfind q, hf]
          rfl
        simp only [chainReachesNone, hf2, hpar a]
        exact ih a.parent_agent_id hp

/-- With no duplicate ids, `find?` returns the member with the sought id. -/
theorem find?_of_mem_nodup (l : List Agent) (hnd : (l.map Agent.id).Nodup) (b : Agent)
    (hb : b ∈ l) (p : String) (hbp : b.id = p) :
    l.find? (fun a => a.id == p) = some b := by
  induction l with
  | nil => cases hb
  | cons x xs ih =>
    rw [List.map_cons, List.nodup_cons] at hnd
    rcases List.mem_cons.mp hb with rfl | hbx
    · have hbq : (b.id == p) = true := by simp [hbp]
      simp [List.find?, hbq]
    · have hx : (x.id == p) = false := by
        simp only [beq_eq_false_iff_ne, ne_eq]
        intro hxp
        refine hnd.1 ?_
        rw [hxp, ← hbp]
        exact List.mem_map_of_mem Agent.id hbx
      simp only [List.find?, hx]
      exact ih hnd.2 hbx

/-- Two members with the same id of a duplicate-free table are equal. -/
theorem eq_of_mem_nodup_id (l : List Agent) (hnd : (l.map Agent.id).Nodup) (a b : Agent)
    (ha : a ∈ l) (hb : b ∈ l) (hid : a.id = b.id) : a = b := by
  induction l with
  | nil => cases ha
  | cons x xs ih =>
    rw [List.map_cons, List.nodup_cons] at hnd
    rcases List.mem_cons.mp ha with rfl | hax
    · rcases List.mem_cons.mp hb with rfl | hbx
      · rfl
      · exact absurd (hid ▸ List.mem_map_of_mem Agent.id hbx) hnd.1
    · rcases List.mem_cons.mp hb with rfl | hbx
      · exact absurd (hid ▸ List.mem_map_of_mem Agent.id hax) hnd.1
      · exact ih hnd.2 hax hbx

/-- In a duplicate-free, parent-earlier table, the chain from the row at
index `i` resolves to null within `i` dereferences. -/
theorem chain_of_parentEarlier (l : List Agent) (hnd : (l.map Agent.id).Nodup)
    (hpe : ParentEarlier l) :
    ∀ i (hi : i < l.length),
      chainReachesNone l (l.get ⟨i, hi⟩).parent_agent_id i = true := by
  intro i
  induction i using Nat.strong_induction_on with
  | _ i ih =>
    intro hi
    cases hp : (l.get ⟨i, hi⟩).parent_agent_id with
    | none => simp [chainReachesNone]
    | some p =>
      obtain ⟨j, hj, hji, hjid, -⟩ := hpe i hi p hp
      have hi1 : i = (i - 1) + 1 := by omega
      rw [hi1]
      have hfj := find?_of_mem_nodup l hnd (l.get ⟨j, hj⟩) (l.get_mem j hj) p hjid
      simp only [chainReachesNone, hfj]
      exact chain_mono l j (i - 1) (by omega) _ (ih j hji hj)

/-- The stack-related part of the correlator invariant, over the truthy
session id, current agent, stack and agents table. -/
def stackOkAux : Option String → Option String → List String → List Agent → Prop
  | none, cag, stk, _ => stk = [] ∧ cag = none
  | some sid, cag, stk, ags =>
      cag = stk.getLast? ∧
      ∀ i (hi : i < stk.length),
        ∃ a ∈ ags, a.id = stk.get ⟨i, hi⟩ ∧ a.session_id = sid ∧
          chainReachesNone ags a.parent_agent_id i = true

/-- While a session is open, the current agent is the stack top and every
stack entry at depth `i` is a recorded agent of this session whose parent
chain resolves to null within `i` steps; without an open session, the
stack is empty and there is no current agent. -/
def StackOk (s : Sys) : Prop :=
  stackOkAux (jsStr s.ctx.currentSessionId) s.ctx.currentAgentId s.ctx.agentStack s.db.agents

/-- The correlator invariant: no duplicate agent ids, every parent named
an earlier same-session agent, and the stack is consistent. -/
def CorrInv (s : Sys) : Prop :=
  (s.db.agents.map Agent.id).Nodup ∧ ParentEarlier s.db.agents ∧ StackOk s

/-- `CorrInv` only looks at the agents table and three context fields. -/
theorem inv_transport (s s' : Sys) (hag : s'.db.agents = s.db.agents)
    (hsid : s'.ctx.currentSessionId = s.ctx.currentSessionId)
    (hcag : s'.ctx.currentAgentId = s.ctx.currentAgentId)
    (hstk : s'.ctx.agentStack = s.ctx.agentStack) (h : CorrInv s) : CorrInv s' := by
  unfold CorrInv StackOk at h ⊢
  rw [hag, hsid, hcag, hstk]
  exact h

/-- What the Task branch of the pre-tool hook does to the modelled state,
given an open session and a fresh generated id. -/
theorem preTool_task_unfold (s : Sys) (sid : String) (i : Option JVal) (t : TaskInput)
    (g : String) (now : Nat) (hsid : jsStr s.ctx.currentSessionId = some sid)
    (hfresh : (s.db.agents.any (fun b => b.id == g)) = false) :
    (preToolHook "Task" i t g now s).db.agents = s.db.agents ++
      [⟨g, sid, jsStr s.ctx.currentAgentId, some ((jsStr t.subagent_type).getD "unknown"),
        jsOrStr t.description (t.prompt.map (fun p => p.take 100)), now, none,
        AgentStatus.running⟩] ∧
    (preToolHook "Task" i t g now s).ctx.agentStack = s.ctx.agentStack ++ [g] ∧
    (preToolHook "Task" i t g now s).ctx.currentAgentId = some g ∧
    (preToolHook "Task" i t g now s).ctx.currentSessionId = s.ctx.currentSessionId := by
  refine ⟨?_, ?_, ?_, ?_⟩ <;>
    simp [preToolHook, hsid, createAgent, hfresh, recordEvent, recordToolStart]

/-- With a truthy current agent, the agent named by the current-agent
marker is a recorded agent of the session sitting at the top of a
non-empty stack, with a resolving parent chain. -/
theorem stack_last_core (l : List Agent) (stk : List String) (cag : Option String)
    (sid : String) (hso : stackOkAux (some sid) cag stk l) (p : String)
    (hp : jsStr cag = some p) :
    ∃ a ∈ l, a.id = p ∧ a.session_id = sid ∧ 1 ≤ stk.length ∧
      chainReachesNone l a.parent_agent_id (stk.length - 1) = true := by
  simp only [stackOkAux] at hso
  obtain ⟨hcagL, hstack⟩ := hso
  cases hcg : cag with
  | none => rw [hcg] at hp; simp [jsStr] at hp
  | some q =>
    rw [hcg] at hp
    have hqp : q = p := by
      simp only [jsStr] at hp
      split at hp
      · cases hp
      · exact Option.some.inj hp
    subst hqp
    have hlast : stk.getLast? = some q := by rw [← hcagL, hcg]
    have h2 : stk[stk.length - 1]? = some q := by
      rw [← List.getLast?_eq_getElem?]
      exact hlast
    rw [List.getElem?_eq_some] at h2
    obtain ⟨hb, hbe⟩ := h2
    obtain ⟨a, hain, haid, hasess, hchain⟩ := hstack (stk.length - 1) hb
    refine ⟨a, hain, ?_, hasess, by omega, hchain⟩
    rw [haid, List.get_eq_getElem, hbe]

/-- Pushing a fresh agent whose parent is the (truthy) current agent
preserves all three components of the correlator invariant. -/
theorem corrInv_task_core (l : List Agent) (stk : List String) (cag : Option String)
    (sid : String) (A : Agent)
    (hnd : (l.map Agent.id).Nodup) (hpe : ParentEarlier l)
    (hso : stackOkAux (some sid) cag stk l)
    (hfresh : ∀ b ∈ l, b.id ≠ A.id)
    (hApar : A.parent_agent_id = jsStr cag)
    (hAsess : A.session_id = sid) :
    ((l ++ [A]).map Agent.id).Nodup ∧ ParentEarlier (l ++ [A]) ∧
      stackOkAux (some sid) (some A.id) (stk ++ [A.id]) (l ++ [A]) := by
  have hnotin : A.id ∉ l.map Agent.id := by
    intro hm
    obtain ⟨b, hb, hbid⟩ := List.mem_map.mp hm
    exact hfresh b hb hbid
  have hnd' : ((l ++ [A]).map Agent.id).Nodup := by
    rw [List.map_append]
    refine hnd.append (List.nodup_singleton _) ?_
    intro x hx hx2
    rw [List.map_singleton, List.mem_singleton] at hx2
    rw [hx2] at hx
    exact hnotin hx
  have hstack := (by simp only [stackOkAux] at hso; exact hso.2 :
    ∀ i (hi : i < stk.length), ∃ a ∈ l, a.id = stk.get ⟨i, hi⟩ ∧ a.session_id = sid ∧
      chainReachesNone l a.parent_agent_id i = true)
  refine ⟨hnd', ?_, ?_⟩
  · intro idx hidx pp hp
    have hlen : (l ++ [A]).length = l.length + 1 := by simp
    by_cases hlt : idx < l.length
    · have hget : (l ++ [A]).get ⟨idx, hidx⟩ = l.get ⟨idx, hlt⟩ := by
        rw [List.get_eq_getElem, List.get_eq_getElem]
        exact List.getElem_append_left hlt
      rw [hget] at hp
      obtain ⟨j, hj, hji, hjid, hjsess⟩ := hpe idx hlt pp hp
      have hj' : j < (l ++ [A]).length := by rw [hlen]; omega
      have hgetj : (l ++ [A]).get ⟨j, hj'⟩ = l.get ⟨j, hj⟩ := by
        rw [List.get_eq_getElem, List.get_eq_getElem]
        exact List.getElem_append_left hj
      refine ⟨j, hj', hji, ?_, ?_⟩
      · rw [hgetj]; exact hjid
      · rw [hgetj, hget]; exact hjsess
    · have hidxe : idx = l.length := by rw [hlen] at hidx; omega
      have hgetA : (l ++ [A]).get ⟨idx, hidx⟩ = A := by
        rw [List.get_eq_getElem]
        exact List.getElem_concat_length _ _ _ hidxe _
      rw [hgetA] at hp
      rw [hApar] at hp
      obtain ⟨a, hain, haid, hasess, hlen1, hchain⟩ := stack_last_core l stk cag sid hso pp hp
      obtain ⟨j, hj, hja⟩ := List.getElem_of_mem hain
      have hj' : j < (l ++ [A]).length := by rw [hlen]; omega
      have hgetj : (l ++ [A]).get ⟨j, hj'⟩ = a := by
        rw [List.get_eq_getElem, List.getElem_append_left hj]
        exact hja
      refine ⟨j, hj', by omega, ?_, ?_⟩
      · rw [hgetj]; exact haid
      · rw [hgetj, hgetA, hasess, hAsess]
  · simp only [stackOkAux]
    refine ⟨(List.getLast?_concat stk).symm, ?_⟩
    intro idx hidx
    have hidx2 : idx < stk.length + 1 := by simpa using hidx
    by_cases hlt : idx < stk.length
    · obtain ⟨a, hain, haid, hasess, hchain⟩ := hstack idx hlt
      refine ⟨a, List.mem_append_left _ hain, ?_, hasess,
        chain_append l [A] idx a.parent_agent_id hchain⟩
      rw [List.get_eq_getElem, List.getElem_append_left hlt, haid, List.get_eq_getElem]
    · have hidxe : idx = stk.length := by omega
      refine ⟨A, List.mem_append_right _ (List.mem_singleton_self A), ?_, hAsess, ?_⟩
      · rw [List.get_eq_getElem, List.getElem_concat_length _ _ _ hidxe]
      · rw [hApar]
        cases hpc : jsStr cag with
        | none => cases idx <;> simp [chainReachesNone]
        | some p =>
          obtain ⟨a, hain, haid, hasess2, hlen1, hchain⟩ :=
            stack_last_core l stk cag sid hso p hpc
          have hidx1 : idx = (idx - 1) + 1 := by omega
          rw [hidx1]
          have hfind : (l ++ [A]).find? (fun b => b.id == p) = some a :=
            find?_of_mem_nodup _ hnd' a (List.mem_append_left _ hain) p haid
          simp only [chainReachesNone, hfind]
          have hch2 := chain_append l [A] (stk.length - 1) a.parent_agent_id hchain
          exact chain_mono _ _ _ (by omega) _ hch2

/-- The per-row update performed by `endAgent` when the subagent-stop pop
closes the agent `cid`. -/
def endAgentUpd (cid : String) (now : Nat) (a : Agent) : Agent :=
  if a.id = cid then { a with ended_at := some now, status := AgentStatus.completed } else a

/-- `endAgentUpd` keeps the id. -/
theorem endAgentUpd_id (cid : String) (now : Nat) (a : Agent) :
    (endAgentUpd cid now a).id = a.id := by
  unfold endAgentUpd; split <;> rfl

/-- `endAgentUpd` keeps the parent pointer. -/
theorem endAgentUpd_parent (cid : String) (now : Nat) (a : Agent) :
    (endAgentUpd cid now a).parent_agent_id = a.parent_agent_id := by
  unfold endAgentUpd; split <;> rfl

/-- `endAgentUpd` keeps the owning session. -/
theorem endAgentUpd_session (cid : String) (now : Nat) (a : Agent) :
    (endAgentUpd cid now a).session_id = a.session_id := by
  unfold endAgentUpd; split <;> rfl

/-- Every hook invocation preserves the correlator invariant. -/
theorem inv_step (c : HookCall) (s : Sys) (h : CorrInv s) : CorrInv (applyHook c s) := by
  cases c with
  | start sid meta now =>
    refine ⟨h.1, h.2.1, ?_⟩
    show stackOkAux (jsStr (some sid)) none [] s.db.agents
    by_cases he : sid.isEmpty
    · simp [jsStr, he, stackOkAux]
    · simp [jsStr, he, stackOkAux]
  | pre n i t g now =>
    show CorrInv (preToolHook n i t g now s)
    cases hsid : jsStr s.ctx.currentSessionId with
    | none =>
      have he : preToolHook n i t g now s = s := by simp [preToolHook, hsid]
      rw [he]; exact h
    | some sid =>
      by_cases ht : n = "Task"
      · subst ht
        by_cases hdup : s.db.agents.any (fun b => b.id == g)
        · have he : preToolHook "Task" i t g now s = s := by
            simp [preToolHook, hsid, createAgent, hdup]
          rw [he]; exact h
        · have hfr : (s.db.agents.any (fun b => b.id == g)) = false := by
            revert hdup
            cases s.db.agents.any (fun b => b.id == g) <;> simp
          obtain ⟨hag, hstk, hcag, hsidp⟩ := preTool_task_unfold s sid i t g now hsid hfr
          obtain ⟨hnd, hpe, hso⟩ := h
          have hso2 : stackOkAux (some sid) s.ctx.currentAgentId s.ctx.agentStack
              s.db.agents := by
            unfold StackOk at hso
            rw [hsid] at hso
            exact hso
          have hfresh2 : ∀ b ∈ s.db.agents,
              b.id ≠ (⟨g, sid, jsStr s.ctx.currentAgentId,
                some ((jsStr t.subagent_type).getD "unknown"),
                jsOrStr t.description (t.prompt.map (fun p => p.take 100)), now, none,
                AgentStatus.running⟩ : Agent).id := by
            intro b hb hbid
            have hx : s.db.agents.any (fun x => x.id == g) = true :=
              List.any_eq_true.mpr ⟨b, hb, by simpa using hbid⟩
            rw [hfr] at hx
            cases hx
          have hcore := corrInv_task_core s.db.agents s.ctx.agentStack s.ctx.currentAgentId
            sid ⟨g, sid, jsStr s.ctx.currentAgentId,
              some ((jsStr t.subagent_type).getD "unknown"),
              jsOrStr t.description (t.prompt.map (fun p => p.take 100)), now, none,
              AgentStatus.running⟩ hnd hpe hso2 hfresh2 rfl rfl
          refine ⟨?_, ?_, ?_⟩
          · rw [hag]; exact hcore.1
          · rw [hag]; exact hcore.2.1
          · unfold StackOk
            have hsid' : jsStr (preToolHook "Task" i t g now s).ctx.currentSessionId
                = some sid := by
              rw [hsidp]; exact hsid
            rw [hsid', hcag, hstk, hag]
            exact hcore.2.2
      · refine inv_transport s _ ?_ ?_ ?_ ?_ h <;>
          simp [preToolHook, hsid, ht, recordToolStart]
  | post o e now =>
    show CorrInv (postToolHook o e now s)
    cases hp : s.ctx.pendingToolUseId with
    | none =>
      have he : postToolHook o e now s = s := by simp [postToolHook, hp]
      rw [he]; exact h
    | some tid =>
      by_cases h0 : tid = 0
      · have he : postToolHook o e now s = s := by simp [postToolHook, hp, h0]
        rw [he]; exact h
      · refine inv_transport s _ ?_ ?_ ?_ ?_ h <;> simp [postToolHook, hp, h0, recordToolEnd]
  | substop r now =>
    show CorrInv (subagentStopHook r now s)
    cases hsid : jsStr s.ctx.currentSessionId with
    | none =>
      have he : subagentStopHook r now s = s := by simp [subagentStopHook, hsid]
      rw [he]; exact h
    | some sid =>
      cases hl : s.ctx.agentStack.getLast? with
      | none =>
        have he : subagentStopHook r now s = s := by simp [subagentStopHook, hsid, hl]
        rw [he]; exact h
      | some cid =>
        have hag : (subagentStopHook r now s).db.agents =
            s.db.agents.map (endAgentUpd cid now) := by
          simp [subagentStopHook, hsid, hl, endAgent, recordEvent, endAgentUpd]
        have hcsid : (subagentStopHook r now s).ctx.currentSessionId =
            s.ctx.currentSessionId := by
          simp [subagentStopHook, hsid, hl, endAgent, recordEvent]
        have hcag : (subagentStopHook r now s).ctx.currentAgentId =
            s.ctx.agentStack.dropLast.getLast? := by
          simp [subagentStopHook, hsid, hl, endAgent, recordEvent]
        have hstk : (subagentStopHook r now s).ctx.agentStack =
            s.ctx.agentStack.dropLast := by
          simp [subagentStopHook, hsid, hl, endAgent, recordEvent]
        obtain ⟨hnd, hpe, hso⟩ := h
        have hso2 : stackOkAux (some sid) s.ctx.currentAgentId s.ctx.agentStack
            s.db.agents := by
          unfold StackOk at hso
          rw [hsid] at hso
          exact hso
        simp only [stackOkAux] at hso2
        have hmapid : (s.db.agents.map (endAgentUpd cid now)).map Agent.id =
            s.db.agents.map Agent.id := by
          rw [List.map_map]
          exact List.map_congr_left (fun a _ => endAgentUpd_id cid now a)
        refine ⟨?_, ?_, ?_⟩
        · rw [hag, hmapid]; exact hnd
        · rw [hag]
          intro idx hidx pp hp
          have hidx' : idx < s.db.agents.length := by simpa using hidx
          have hget : (s.db.agents.map (endAgentUpd cid now)).get ⟨idx, hidx⟩ =
              endAgentUpd cid now (s.db.agents.get ⟨idx, hidx'⟩) := by
            rw [List.get_eq_getElem, List.get_eq_getElem, List.getElem_map]
          rw [hget, endAgentUpd_parent] at hp
          obtain ⟨j, hj, hji, hjid, hjsess⟩ := hpe idx hidx' pp hp
          have hj' : j < (s.db.agents.map (endAgentUpd cid now)).length := by simpa using hj
          have hgetj : (s.db.agents.map (endAgentUpd cid now)).get ⟨j, hj'⟩ =
              endAgentUpd cid now (s.db.agents.get ⟨j, hj⟩) := by
            rw [List.get_eq_getElem, List.get_eq_getElem, List.getElem_map]
          refine ⟨j, hj', hji, ?_, ?_⟩
          · rw [hgetj, endAgentUpd_id]; exact hjid
          · rw [hgetj, hget, endAgentUpd_session, endAgentUpd_session]; exact hjsess
        · unfold StackOk
          have hsid2 : jsStr (subagentStopHook r now s).ctx.currentSessionId = some sid := by
            rw [hcsid]; exact hsid
          rw [hsid2, hcag, hstk, hag]
          simp only [stackOkAux]
          refine ⟨by trivial, ?_⟩
          intro idx hidx
          have hdl : s.ctx.agentStack.dropLast.length = s.ctx.agentStack.length - 1 :=
            List.length_dropLast _
          have hidx2 : idx < s.ctx.agentStack.length := by omega
          obtain ⟨a, hain, haid, hasess, hchain⟩ := hso2.2 idx hidx2
          refine ⟨endAgentUpd cid now a, List.mem_map_of_mem _ hain, ?_, ?_, ?_⟩
          · rw [endAgentUpd_id, haid, List.get_eq_getElem, List.get_eq_getElem,
              List.getElem_dropLast]
          · rw [endAgentUpd_session]; exact hasess
          · rw [endAgentUpd_parent]
            exact chain_map s.db.agents (endAgentUpd cid now) (endAgentUpd_id cid now)
              (endAgentUpd_parent cid now) idx a.parent_agent_id hchain
  | stop now =>
    show CorrInv (stopHook now s)
    cases hsid : jsStr s.ctx.currentSessionId with
    | none =>
      have he : stopHook now s = s := by simp [stopHook, hsid]
      rw [he]; exact h
    | some sid =>
      refine inv_transport s _ ?_ ?_ ?_ ?_ h <;> simp [stopHook, hsid, recordEvent]
  | endSess now =>
    show CorrInv (sessionEndHook now s)
    have hag : (sessionEndHook now s).db.agents = s.db.agents := by
      cases hsid : jsStr s.ctx.currentSessionId <;>
        simp [sessionEndHook, hsid, markPendingToolsInterrupted, recordEvent, endSession]
    refine ⟨by rw [hag]; exact h.1, by rw [hag]; exact h.2.1, ?_⟩
    exact ⟨rfl, rfl⟩

/-- The empty store with the default context satisfies the invariant. -/
theorem inv_init : CorrInv initialSys := by
  refine ⟨List.nodup_nil, ?_, ?_⟩
  · intro i hi
    exact absurd hi (Nat.not_lt_zero i)
  · exact ⟨rfl, rfl⟩

/-- The invariant holds after any run of hooks from an invariant state. -/
theorem inv_run (l : List HookCall) : ∀ s : Sys, CorrInv s → CorrInv (runHooks l s) := by
  induction l with
  | nil => intro s h; exact h
  | cons c rest ih => intro s h; exact ih (applyHook c s) (inv_step c s h)

/-- The invariant holds in every reachable state. -/
theorem inv_reachable (s : Sys) (hs : Reachable s) : CorrInv s := by
  obtain ⟨l, rfl⟩ := hs
  exact inv_run l initialSys inv_init

/-- C5: in every state reachable by the correlator step relation, the
agent relation is acyclic — following `parent_agent_id` from any agent
reaches null within a bounded number of steps (at most the table size,
and for an agent being created, at most the agent-stack depth at its
creation) — and `parent_agent_id`, when set, names an agent created
earlier (appended earlier) in the same session. -/
theorem C5_agent_forest_acyclic (s : Sys) (hs : Reachable s) :
    (∀ a ∈ s.db.agents,
      chainReachesNone s.db.agents a.parent_agent_id s.db.agents.length = true) ∧
    ParentEarlier s.db.agents ∧
    (∀ i2 t g now sid, jsStr s.ctx.currentSessionId = some sid →
      (s.db.agents.any (fun b => b.id == g)) = false →
      ∃ A ∈ (preToolHook "Task" i2 t g now s).db.agents, A.id = g ∧ A.session_id = sid ∧
        chainReachesNone (preToolHook "Task" i2 t g now s).db.agents A.parent_agent_id
          ((preToolHook "Task" i2 t g now s).ctx.agentStack.length) = true) := by
  obtain ⟨hnd, hpe, hso⟩ := inv_reachable s hs
  refine ⟨?_, hpe, ?_⟩
  · intro a ha
    obtain ⟨idx, hidx, hae⟩ := List.getElem_of_mem ha
    have hch := chain_of_parentEarlier s.db.agents hnd hpe idx hidx
    rw [List.get_eq_getElem, hae] at hch
    exact chain_mono _ idx _ (by omega) _ hch
  · intro i2 t g now sid hsid hfr
    have hinv' : CorrInv (preToolHook "Task" i2 t g now s) :=
      inv_step (HookCall.pre "Task" i2 t g now) s ⟨hnd, hpe, hso⟩
    obtain ⟨hag, hstk, hcag, hsidp⟩ := preTool_task_unfold s sid i2 t g now hsid hfr
    have hso' := hinv'.2.2
    unfold StackOk at hso'
    have hsid' : jsStr (preToolHook "Task" i2 t g now s).ctx.currentSessionId = some sid := by
      rw [hsidp]; exact hsid
    rw [hsid'] at hso'
    simp only [stackOkAux] at hso'
    have hlen : 0 < (preToolHook "Task" i2 t g now s).ctx.agentStack.length := by
      rw [hstk]; simp
    have hlt : (preToolHook "Task" i2 t g now s).ctx.agentStack.length - 1 <
        (preToolHook "Task" i2 t g now s).ctx.agentStack.length := by omega
    obtain ⟨A, hain, haid, hasess, hchain⟩ := hso'.2 _ hlt
    refine ⟨A, hain, ?_, hasess, chain_mono _ _ _ (by omega) _ hchain⟩
    rw [haid, List.get_eq_getElem]
    have hg : (preToolHook "Task" i2 t g now s).ctx.agentStack[
        (preToolHook "Task" i2 t g now s).ctx.agentStack.length - 1]? = some g := by
      rw [← List.getLast?_eq_getElem?, hstk]
      exact List.getLast?_concat _
    rw [List.getElem?_eq_some] at hg
    obtain ⟨hb2, hbe2⟩ := hg
    exact hbe2

/-- C5 witness: spawning "A1" at the reachable state right after
SessionStart creates an agent of session S1 whose parent chain resolves
within the stack depth at its creation. -/
theorem C5_agent_forest_acyclic_witness :
    ∃ A ∈ (preToolHook "Task" none {} "A1" 1
        (runHooks [HookCall.start "S1" {} 0] initialSys)).db.agents,
      A.id = "A1" ∧ A.session_id = "S1" ∧
      chainReachesNone
        (preToolHook "Task" none {} "A1" 1
          (runHooks [HookCall.start "S1" {} 0] initialSys)).db.agents
        A.parent_agent_id
        ((preToolHook "Task" none {} "A1" 1
          (runHooks [HookCall.start "S1" {} 0] initialSys)).ctx.agentStack.length) = true :=
  (C5_agent_forest_acyclic _ ⟨[HookCall.start "S1" {} 0], rfl⟩).2.2 none {} "A1" 1 "S1"
    (by decide) (by decide)
